import Mathlib

/-
  Verification of the ephemeral anonymous-messaging relay (OChat backend).

  The repository contains two near-duplicate server variants:
  * the in-memory variant (`storage.links` / `storage.conversations` as Maps,
    hourly `cleanupOldMessages` sweep, socket.io handlers), modelled in
    namespace `InMem`;
  * the MongoDB variant (`server.js`: Link / Conversation collections,
    `cleanupOrphanedConversations` sweep, socket.io handlers), modelled in
    namespace `Mongo`.

  JavaScript `Map`s are modelled as association lists preserving insertion
  order (`Map.set` replaces in place or appends, `Map.delete` filters,
  iteration is in list order).  Timestamps (`Date.now()`) are natural-number
  milliseconds supplied as explicit `now` arguments; randomly generated
  identifiers are explicit arguments, with the (probabilistic) uniqueness of
  generated ids captured by the well-formedness predicate on traces.
-/

set_option maxHeartbeats 1000000

namespace Anonym

/-- Lookup in an association list, returning the first binding of the key
(the JavaScript `Map.get`). -/
def alookup {β : Type} (k : String) : List (String × β) → Option β
  | [] => none
  | (k', v) :: rest => if k' = k then some v else alookup k rest

/-- `Map.set`: replace the first binding of the key in place, or append a new
binding at the end (JavaScript Maps keep insertion order on overwrite). -/
def mapSet {β : Type} (k : String) (v : β) : List (String × β) → List (String × β)
  | [] => [(k, v)]
  | (k', v') :: rest => if k' = k then (k, v) :: rest else (k', v') :: mapSet k v rest

namespace InMem

/-- A chat message of the in-memory variant (`{text, isCreator, timestamp, id}`). -/
structure Message where
  text : String
  isCreator : Bool
  timestamp : Nat
  id : String
deriving DecidableEq

/-- A conversation record of the in-memory variant. -/
structure Conversation where
  id : String
  linkId : String
  messages : List Message
  createdAt : Nat
  lastMessage : Nat
  hasMessages : Bool
deriving DecidableEq

/-- A link record of the in-memory variant (`conversations` is the list of
conversation ids promoted onto the link). -/
structure Link where
  id : String
  creatorId : String
  createdAt : Nat
  conversations : List String
deriving DecidableEq

/-- The global `storage` object: two insertion-ordered maps. -/
structure Storage where
  links : List (String × Link)
  conversations : List (String × Conversation)
deriving DecidableEq

def emptyStorage : Storage := { links := [], conversations := [] }

/-- `AUTO_DELETE_TIME`: 24-hour message TTL in milliseconds. -/
def AUTO_DELETE_TIME : Nat := 24 * 60 * 60 * 1000

/-- Whitespace characters removed by JavaScript `String.prototype.trim`
(restricted to the ASCII whitespace characters; the full JS set also has
Unicode spaces, which no claim depends on). -/
def isJsSpace (c : Char) : Bool :=
  c = ' ' || c = '\t' || c = '\n' || c = '\r' || c = '\x0b' || c = '\x0c'

/-- JavaScript `message.trim()`: strip leading and trailing whitespace. -/
def jsTrim (s : String) : String :=
  String.mk (((s.toList.dropWhile isJsSpace).reverse.dropWhile isJsSpace).reverse)

/-- Delivery target of a socket.io emit: `io.to(room)` reaches every member
of the room, `socket.broadcast.to(room)` every member except the sender,
`socket.emit` only the sender. -/
inductive Target where
  | toRoom (room : String)
  | broadcastRoom (room : String)
  | toSender
deriving DecidableEq

/-- Event payloads emitted by the in-memory handlers.  `conversationUpdated`
carries exactly the fields of the JS payload `{id, linkId, lastMessage,
messages, createdAt}`. -/
inductive Event where
  | newMessage (convId : String) (message : Message)
  | newConversation (conversation : Conversation)
  | conversationUpdated (id linkId : String) (lastMessage : Nat)
      (messages : List Message) (createdAt : Nat)
  | loadMessages (messages : List Message)
  | errorMsg (message : String)
deriving DecidableEq

/-- One socket.io emission: a target room/sender and an event. -/
structure Emitted where
  target : Target
  event : Event
deriving DecidableEq

/-- Sessions that actually receive an emission, given the members of the
event's room and the sending session. -/
def recipients (members : List String) (sender : String) : Target → List String
  | Target.toRoom _ => members
  | Target.broadcastRoom _ => members.filter (fun m => decide (m ≠ sender))
  | Target.toSender => [sender]

/-- `POST /api/links/create`: insert a fresh link with no conversations. -/
def createLink (linkId creatorId : String) (now : Nat) (s : Storage) : Storage :=
  { s with
    links := mapSet linkId
      { id := linkId, creatorId := creatorId, createdAt := now, conversations := [] } s.links }

/-- `POST /api/conversations/create`: 404 (`none`) if the link is absent,
otherwise insert a conversation with no messages, `hasMessages = false`,
not referenced from the link. -/
def createConversation (linkId convId : String) (now : Nat) (s : Storage) :
    Storage × Option Conversation :=
  match alookup linkId s.links with
  | none => (s, none)
  | some _ =>
    let conversation : Conversation :=
      { id := convId, linkId := linkId, messages := [], createdAt := now,
        lastMessage := now, hasMessages := false }
    ({ s with conversations := mapSet convId conversation s.conversations }, some conversation)

/-- The room name `` `link_${linkId}` ``. -/
def linkRoom (linkId : String) : String := "link_" ++ linkId

/-- The `send-message` socket handler of the in-memory variant.  A missing
conversation returns silently (`if (!conv) return;`).  Otherwise the trimmed
text is appended, `lastMessage` updated, and on the first message the
conversation is promoted: `hasMessages := true`, the conversation id is pushed
onto the link's list (guarded by `includes`), and `new-conversation` is
broadcast to the link room.  `new-message` goes to the whole conversation room
(`io.to`, sender included) and `conversation-updated` to the link room. -/
def sendMessage (convId text : String) (isCreator : Bool) (now : Nat) (msgId : String)
    (s : Storage) : Storage × List Emitted :=
  match alookup convId s.conversations with
  | none => (s, [])
  | some conv =>
    let newMessage : Message :=
      { text := jsTrim text, isCreator := isCreator, timestamp := now, id := msgId }
    let conv1 : Conversation :=
      { conv with messages := conv.messages ++ [newMessage], lastMessage := now }
    let tail : List Emitted :=
      [ { target := Target.toRoom convId, event := Event.newMessage convId newMessage },
        { target := Target.toRoom (linkRoom conv.linkId),
          event := Event.conversationUpdated conv.id conv.linkId now conv1.messages conv.createdAt } ]
    if conv.messages.isEmpty then
      let conv2 : Conversation := { conv1 with hasMessages := true }
      match alookup conv.linkId s.links with
      | some link =>
        if convId ∈ link.conversations then
          ({ links := s.links, conversations := mapSet convId conv2 s.conversations }, tail)
        else
          ({ links := mapSet conv.linkId
               { link with conversations := link.conversations ++ [convId] } s.links,
             conversations := mapSet convId conv2 s.conversations },
           { target := Target.toRoom (linkRoom conv.linkId),
             event := Event.newConversation conv2 } :: tail)
      | none => ({ links := s.links, conversations := mapSet convId conv2 s.conversations }, tail)
    else
      ({ links := s.links, conversations := mapSet convId conv1 s.conversations }, tail)

/-- `GET /api/conversations/:convId`: 404 when absent; otherwise the stored
message list is filtered in place to the messages within the TTL and the
filtered conversation is returned. -/
def getConversation (convId : String) (now : Nat) (s : Storage) :
    Storage × Option Conversation :=
  match alookup convId s.conversations with
  | none => (s, none)
  | some conv =>
    let conv' : Conversation :=
      { conv with
        messages := conv.messages.filter (fun m => decide (now - m.timestamp ≤ AUTO_DELETE_TIME)) }
    ({ s with conversations := mapSet convId conv' s.conversations }, some conv')

/-- A message survives the sweep when `(now - msg.timestamp) > AUTO_DELETE_TIME`
is false. -/
def msgKept (now : Nat) (m : Message) : Bool := !(decide (now - m.timestamp > AUTO_DELETE_TIME))

/-- Per-conversation part of `cleanupOldMessages`: filter expired messages and,
when messages remain, reset `lastMessage` to the last remaining timestamp. -/
def cleanupConv (now : Nat) (c : Conversation) : Conversation :=
  let msgs := c.messages.filter (msgKept now)
  match msgs.getLast? with
  | some m => { c with messages := msgs, lastMessage := m.timestamp }
  | none => { c with messages := msgs }

/-- The sweep's deletion test, applied after message filtering: no messages
left and `(now - conv.createdAt) > 3600000` (one hour). -/
def doomedConv (now : Nat) (c : Conversation) : Bool :=
  c.messages.isEmpty && decide (now - c.createdAt > 3600000)

/-- When a conversation is deleted, its id is filtered out of its own link's
`conversations` list (if that link exists). -/
def removeFromLink (links : List (String × Link)) (lid cid : String) :
    List (String × Link) :=
  match alookup lid links with
  | none => links
  | some l =>
    mapSet lid { l with conversations := l.conversations.filter (fun i => decide (i ≠ cid)) } links

/-- `cleanupOldMessages`: for every conversation filter expired messages and
refresh `lastMessage`; then delete every conversation left empty and older
than one hour, removing each deleted id from its link's list. -/
def cleanupOldMessages (now : Nat) (s : Storage) : Storage :=
  let convs1 := s.conversations.map (fun p => (p.1, cleanupConv now p.2))
  let dead := convs1.filter (fun p => doomedConv now p.2)
  let kept := convs1.filter (fun p => !(doomedConv now p.2))
  { links := dead.foldl (fun ls p => removeFromLink ls p.2.linkId p.1) s.links,
    conversations := kept }

/-- The state-mutating operations of the in-memory variant (the socket `join`
handlers and typing indicators never mutate the store and never emit
`new-conversation`, so traces range over these four). -/
inductive Op where
  | createLink (linkId creatorId : String) (now : Nat)
  | createConversation (linkId convId : String) (now : Nat)
  | sendMessage (convId text : String) (isCreator : Bool) (now : Nat) (msgId : String)
  | cleanup (now : Nat)
deriving DecidableEq

def stepState (s : Storage) : Op → Storage
  | Op.createLink lid cr now => createLink lid cr now s
  | Op.createConversation lid cid now => (createConversation lid cid now s).1
  | Op.sendMessage cid text isC now mid => (sendMessage cid text isC now mid s).1
  | Op.cleanup now => cleanupOldMessages now s

def stepEvents (s : Storage) : Op → List Emitted
  | Op.createLink _ _ _ => []
  | Op.createConversation _ _ _ => []
  | Op.sendMessage cid text isC now mid => (sendMessage cid text isC now mid s).2
  | Op.cleanup _ => []

def execState (s : Storage) : List Op → Storage
  | [] => s
  | op :: rest => execState (stepState s op) rest

def execEvents (s : Storage) : List Op → List Emitted
  | [] => []
  | op :: rest => stepEvents s op ++ execEvents (stepState s op) rest

/-- The state after running a trace from the empty store. -/
def runState (ops : List Op) : Storage := execState emptyStorage ops

/-- All events emitted while running a trace from the empty store. -/
def runEvents (ops : List Op) : List Emitted := execEvents emptyStorage ops

/-- Conversation ids generated along a trace. -/
def convIdsOf : List Op → List String
  | [] => []
  | Op.createConversation _ cid _ :: rest => cid :: convIdsOf rest
  | _ :: rest => convIdsOf rest

/-- Link ids generated along a trace. -/
def linkIdsOf : List Op → List String
  | [] => []
  | Op.createLink lid _ _ :: rest => lid :: linkIdsOf rest
  | _ :: rest => linkIdsOf rest

/-- Freshness of the ids an operation generates, relative to the operations
already executed: `Date.now() + Math.random()`-style ids never collide. -/
def freshOp (used : List Op) : Op → Bool
  | Op.createLink lid _ _ => !(decide (lid ∈ linkIdsOf used))
  | Op.createConversation _ cid _ => !(decide (cid ∈ convIdsOf used))
  | _ => true

def wfFrom (used : List Op) : List Op → Bool
  | [] => true
  | op :: rest => freshOp used op && wfFrom (used ++ [op]) rest

/-- Well-formed trace: every generated id is fresh at its generation point. -/
def WFTrace (ops : List Op) : Prop := wfFrom [] ops = true

/-- The conversation's message sequence was non-empty at some point of the
trace (evaluated at every take-point of the run). -/
def EverNonEmpty (ops : List Op) (cid : String) : Prop :=
  ∃ n, n ≤ ops.length ∧
    ∃ c, alookup cid (runState (ops.take n)).conversations = some c ∧ c.messages ≠ []

def isNewConvFor (cid : String) (e : Emitted) : Bool :=
  match e.event with
  | Event.newConversation c => decide (c.id = cid)
  | _ => false

def isConvUpdatedFor (cid : String) (e : Emitted) : Bool :=
  match e.event with
  | Event.conversationUpdated i _ _ _ _ => decide (i = cid)
  | _ => false

/-- Number of `new-conversation` emissions about the given conversation id. -/
def countNewConv (cid : String) (evs : List Emitted) : Nat := evs.countP (isNewConvFor cid)

def isErrorEvent (e : Emitted) : Bool :=
  match e.event with
  | Event.errorMsg _ => true
  | _ => false

/-- Targets of the `new-message` emissions in an event list. -/
def newMsgTargets (evs : List Emitted) : List Target :=
  (evs.filter (fun e =>
    match e.event with
    | Event.newMessage _ _ => true
    | _ => false)).map Emitted.target

/-- Message payloads of the `new-message` emissions in an event list. -/
def newMsgPayloads (evs : List Emitted) : List Message :=
  evs.filterMap (fun e =>
    match e.event with
    | Event.newMessage _ m => some m
    | _ => none)

/-- Number of `conversation-updated` emissions about the given conversation id. -/
def countConvUpdated (cid : String) (evs : List Emitted) : Nat :=
  evs.countP (isConvUpdatedFor cid)

end InMem

namespace Mongo

/-- A message subdocument of the MongoDB `Conversation` schema
(`id` is the number `Date.now() + Math.random()`, modelled as a supplied
numeric id; `text` is stored untrimmed). -/
structure MMessage where
  id : Nat
  text : String
  isCreator : Bool
  timestamp : Nat
deriving DecidableEq

/-- A `Conversation` document. -/
structure MConv where
  convId : String
  linkId : String
  anonymousUserId : String
  messages : List MMessage
  createdAt : Nat
  lastMessage : Nat
  hasMessages : Bool
deriving DecidableEq

/-- A `Link` document (`createdAt` feeds the 6-hour TTL index, which is
enforced by the database, not by this code). -/
structure MLink where
  linkId : String
  creatorId : String
  createdAt : Nat
deriving DecidableEq

/-- The two collections, keyed by `linkId` / `convId` (both unique-indexed). -/
structure MStorage where
  links : List (String × MLink)
  convs : List (String × MConv)
deriving DecidableEq

/-- Results of `GET /api/conversations/:convId`: the conversation, or a 404
with the response's error string. -/
inductive MResult where
  | ok (conversation : MConv)
  | notFound (error : String)
deriving DecidableEq

inductive MEvent where
  | newMessage (convId : String) (message : MMessage)
  | newConversation (conversation : MConv)
  | conversationUpdated (conversation : MConv)
  | loadMessages (messages : List MMessage)
  | errorMsg (message : String)
deriving DecidableEq

structure MEmit where
  target : Anonym.InMem.Target
  event : MEvent
deriving DecidableEq

/-- Delete a conversation document (`Conversation.deleteOne({convId})`). -/
def deleteConv (convId : String) (convs : List (String × MConv)) : List (String × MConv) :=
  convs.filter (fun p => decide (p.1 ≠ convId))

/-- `POST /api/conversations/create` of the MongoDB variant: 404 when the
link is absent (missing or TTL-expired); otherwise a fresh conversation with
no messages and `hasMessages = false`. -/
def mongoCreateConversation (linkId convId anonId : String) (now : Nat) (st : MStorage) :
    MStorage × Option MConv :=
  match alookup linkId st.links with
  | none => (st, none)
  | some _ =>
    let conversation : MConv :=
      { convId := convId, linkId := linkId, anonymousUserId := anonId, messages := [],
        createdAt := now, lastMessage := now, hasMessages := false }
    ({ st with convs := mapSet convId conversation st.convs }, some conversation)

/-- `GET /api/conversations/:convId` of the MongoDB variant: 404 when the
conversation is absent; when its link no longer exists the conversation is
deleted and the expired-link 404 returned; otherwise the stored conversation
is returned verbatim (no message filtering). -/
def mongoGetConversation (convId : String) (st : MStorage) : MStorage × MResult :=
  match alookup convId st.convs with
  | none => (st, MResult.notFound "Conversation not found")
  | some conv =>
    match alookup conv.linkId st.links with
    | none =>
      ({ st with convs := deleteConv convId st.convs }, MResult.notFound "Chat link has expired")
    | some _ => (st, MResult.ok conv)

/-- The `join-conversation` handler of the MongoDB variant: silent when the
conversation is absent; deletes the conversation and emits an error when its
link is gone; otherwise delivers the stored messages to the joining session. -/
def mongoJoinConversation (convId : String) (st : MStorage) : MStorage × List MEmit :=
  match alookup convId st.convs with
  | none => (st, [])
  | some conv =>
    match alookup conv.linkId st.links with
    | none =>
      ({ st with convs := deleteConv convId st.convs },
       [{ target := Anonym.InMem.Target.toSender, event := MEvent.errorMsg "Chat link has expired" }])
    | some _ =>
      (st, [{ target := Anonym.InMem.Target.toSender, event := MEvent.loadMessages conv.messages }])

/-- The `send-message` handler of the MongoDB variant.  Missing conversation:
explicit error event to the sender.  Missing link: error event and deletion of
the conversation.  Otherwise the untrimmed text is appended, `lastMessage`
and `hasMessages` set, `new-message` broadcast to the room **excluding the
sender** (`socket.broadcast.to`), `conversation-updated` to the link room,
and `new-conversation` to the link room only when the appended message is the
first (`messages.length === 1`). -/
def mongoSend (convId text : String) (isCreator : Bool) (now msgId : Nat) (st : MStorage) :
    MStorage × List MEmit :=
  match alookup convId st.convs with
  | none =>
    (st, [{ target := Anonym.InMem.Target.toSender,
            event := MEvent.errorMsg "Conversation not found" }])
  | some conv =>
    match alookup conv.linkId st.links with
    | none =>
      ({ st with convs := deleteConv convId st.convs },
       [{ target := Anonym.InMem.Target.toSender, event := MEvent.errorMsg "Chat link has expired" }])
    | some _ =>
      let m : MMessage := { id := msgId, text := text, isCreator := isCreator, timestamp := now }
      let conv' : MConv :=
        { conv with messages := conv.messages ++ [m], lastMessage := now, hasMessages := true }
      ({ st with convs := mapSet convId conv' st.convs },
       [ { target := Anonym.InMem.Target.broadcastRoom convId,
           event := MEvent.newMessage convId m },
         { target := Anonym.InMem.Target.toRoom (Anonym.InMem.linkRoom conv.linkId),
           event := MEvent.conversationUpdated conv' } ]
       ++ (if conv'.messages.length = 1 then
            [{ target := Anonym.InMem.Target.toRoom (Anonym.InMem.linkRoom conv.linkId),
               event := MEvent.newConversation conv' }]
          else []))

/-- `cleanupOrphanedConversations`: delete every conversation whose link no
longer exists, then delete every conversation with `hasMessages: false` whose
`createdAt` precedes one hour ago. -/
def cleanupOrphanedConversations (now : Nat) (st : MStorage) : MStorage :=
  let convs1 := st.convs.filter (fun p => (alookup p.2.linkId st.links).isSome)
  let convs2 := convs1.filter (fun p =>
    !(!p.2.hasMessages && decide (p.2.createdAt < now - 3600000)))
  { st with convs := convs2 }

def isMNewConvFor (cid : String) (e : MEmit) : Bool :=
  match e.event with
  | MEvent.newConversation c => decide (c.convId = cid)
  | _ => false

def isMConvUpdatedFor (cid : String) (e : MEmit) : Bool :=
  match e.event with
  | MEvent.conversationUpdated c => decide (c.convId = cid)
  | _ => false

def isMErrorEvent (e : MEmit) : Bool :=
  match e.event with
  | MEvent.errorMsg _ => true
  | _ => false

/-- Targets of the `new-message` emissions of the MongoDB handlers. -/
def mNewMsgTargets (evs : List MEmit) : List Anonym.InMem.Target :=
  (evs.filter (fun e =>
    match e.event with
    | MEvent.newMessage _ _ => true
    | _ => false)).map MEmit.target

/-- Number of `new-conversation` emissions about the given conversation id. -/
def countMNewConv (cid : String) (evs : List MEmit) : Nat := evs.countP (isMNewConvFor cid)

/-- Number of `conversation-updated` emissions about the given conversation id. -/
def countMConvUpdated (cid : String) (evs : List MEmit) : Nat :=
  evs.countP (isMConvUpdatedFor cid)

end Mongo

namespace InMem

/-- A small concrete trace: create a link, open a conversation under it,
send one (promoting) message. -/
def demoOps : List Op :=
  [ Op.createLink "L" "cr" 0,
    Op.createConversation "L" "C" 1,
    Op.sendMessage "C" " hi " false 2 "m1" ]

/-- The demo trace followed by a second send on the same conversation. -/
def demoOps2 : List Op := demoOps ++ [Op.sendMessage "C" "again" true 3 "m2"]

/-- A promoted conversation holding one message sent at time 0. -/
def demoConvOld : Conversation :=
  { id := "C", linkId := "L",
    messages := [{ text := "hi", isCreator := false, timestamp := 0, id := "m1" }],
    createdAt := 0, lastMessage := 0, hasMessages := true }

/-- A store with one link owning the promoted conversation `demoConvOld`. -/
def demoStoreOld : Storage :=
  { links := [("L", { id := "L", creatorId := "cr", createdAt := 0, conversations := ["C"] })],
    conversations := [("C", demoConvOld)] }

/-- A store with a link and a still-empty (unpromoted) conversation. -/
def demoStoreFresh : Storage :=
  { links := [("L", { id := "L", creatorId := "cr", createdAt := 0, conversations := [] })],
    conversations := [("C", { id := "C", linkId := "L", messages := [], createdAt := 1,
                              lastMessage := 1, hasMessages := false })] }

/-- The conversation record produced by running `demoOps`. -/
def demoConvAfter : Conversation :=
  { id := "C", linkId := "L",
    messages := [{ text := "hi", isCreator := false, timestamp := 2, id := "m1" }],
    createdAt := 1, lastMessage := 2, hasMessages := true }

/-- The link record produced by running `demoOps`. -/
def demoLinkAfter : Link :=
  { id := "L", creatorId := "cr", createdAt := 0, conversations := ["C"] }

/-- The conversation record created by `createConversation "L" "C2" 9` on the
state reached by `demoOps`. -/
def demoConvC2 : Conversation :=
  { id := "C2", linkId := "L", messages := [], createdAt := 9, lastMessage := 9,
    hasMessages := false }

/-- `demoConvOld` after its only message expired at read time. -/
def demoConvEmptied : Conversation :=
  { id := "C", linkId := "L", messages := [], createdAt := 0, lastMessage := 0,
    hasMessages := true }

end InMem

namespace Mongo

def demoMLink : MLink := { linkId := "L", creatorId := "cr", createdAt := 0 }

/-- A fresh MongoDB conversation (no messages yet). -/
def demoMConvFresh : MConv :=
  { convId := "C", linkId := "L", anonymousUserId := "a", messages := [],
    createdAt := 1, lastMessage := 1, hasMessages := false }

/-- A MongoDB conversation holding one message sent at time 0. -/
def demoMConvOld : MConv :=
  { convId := "C", linkId := "L", anonymousUserId := "a",
    messages := [{ id := 1, text := "old", isCreator := false, timestamp := 0 }],
    createdAt := 0, lastMessage := 0, hasMessages := true }

def demoMStoreFresh : MStorage := { links := [("L", demoMLink)], convs := [("C", demoMConvFresh)] }

def demoMStoreOld : MStorage := { links := [("L", demoMLink)], convs := [("C", demoMConvOld)] }

/-- A conversation whose owning link has already been TTL-deleted. -/
def demoMOrphan : MStorage := { links := [], convs := [("C", demoMConvOld)] }

end Mongo

namespace InMem

/-- The conversation map after the per-conversation message filtering phase of
the sweep. -/
def cleanedConvs (now : Nat) (s : Storage) : List (String × Conversation) :=
  s.conversations.map (fun p => (p.1, cleanupConv now p.2))

/-- The conversations the sweep deletes. -/
def deadOf (now : Nat) (s : Storage) : List (String × Conversation) :=
  (cleanedConvs now s).filter (fun p => doomedConv now p.2)

/-- An id survives in link `lid`'s list when no deleted conversation has this
id together with `linkId = lid`. -/
def keepId (dead : List (String × Conversation)) (lid i : String) : Bool :=
  !(dead.any (fun p => decide (p.1 = i) && decide (p.2.linkId = lid)))

/-- State invariant of the in-memory store: unique conversation keys, records
keyed by their own ids, every conversation's link present, every link-list
entry backed by a conversation of that link, non-empty messages implying the
promotion flag, and the flag equivalent to membership in the owning link's
list. -/
structure Inv (s : Storage) : Prop where
  convsNodup : (s.conversations.map Prod.fst).Nodup
  linkId_eq : ∀ lid l, alookup lid s.links = some l → l.id = lid
  link_back : ∀ lid l, alookup lid s.links = some l → ∀ cid ∈ l.conversations,
      ∃ c, alookup cid s.conversations = some c ∧ c.linkId = lid
  conv_id_eq : ∀ cid c, alookup cid s.conversations = some c → c.id = cid
  conv_link : ∀ cid c, alookup cid s.conversations = some c →
      (alookup c.linkId s.links).isSome = true
  nonempty_flag : ∀ cid c, alookup cid s.conversations = some c →
      c.messages ≠ [] → c.hasMessages = true
  flag_mem : ∀ cid c l, alookup cid s.conversations = some c →
      alookup c.linkId s.links = some l → (c.hasMessages = true ↔ cid ∈ l.conversations)

end InMem

/-! ### Association-list lemmas -/

theorem alookup_mapSet_self {β : Type} (k : String) (v : β) (m : List (String × β)) :
    alookup k (mapSet k v m) = some v := by
  induction m with
  | nil => simp [alookup, mapSet]
  | cons p rest ih =>
    obtain ⟨k', v'⟩ := p
    by_cases h : k' = k
    · simp [mapSet, h, alookup]
    · simp [mapSet, h, alookup, ih]

theorem alookup_mapSet_ne {β : Type} {k k' : String} (v : β) (m : List (String × β))
    (h : k ≠ k') : alookup k' (mapSet k v m) = alookup k' m := by
  induction m with
  | nil => simp [alookup, mapSet, h]
  | cons p rest ih =>
    obtain ⟨k₀, v₀⟩ := p
    by_cases h₀ : k₀ = k
    · subst h₀
      simp [mapSet, alookup, h]
    · simp [mapSet, h₀, alookup, ih]

theorem alookup_eq_none_iff {β : Type} (k : String) (m : List (String × β)) :
    alookup k m = none ↔ k ∉ m.map Prod.fst := by
  induction m with
  | nil => simp [alookup]
  | cons p rest ih =>
    obtain ⟨k', v'⟩ := p
    by_cases h : k' = k
    · subst h
      simp [alookup]
    · simp [alookup, h, ih, Ne.symm h]

theorem mem_of_alookup {β : Type} {k : String} {v : β} {m : List (String × β)}
    (h : alookup k m = some v) : (k, v) ∈ m := by
  induction m with
  | nil => simp [alookup] at h
  | cons p rest ih =>
    obtain ⟨k', v'⟩ := p
    by_cases h' : k' = k
    · subst h'
      simp [alookup] at h
      simp [h]
    · simp [alookup, h'] at h
      simp [ih h]

theorem alookup_isSome_iff {β : Type} (k : String) (m : List (String × β)) :
    (alookup k m).isSome = true ↔ k ∈ m.map Prod.fst := by
  rw [Option.isSome_iff_exists]
  constructor
  · rintro ⟨v, hv⟩
    exact List.mem_map.mpr ⟨(k, v), mem_of_alookup hv, rfl⟩
  · intro h
    cases hl : alookup k m with
    | some v => exact ⟨v, rfl⟩
    | none => exact absurd h ((alookup_eq_none_iff k m).mp hl)

theorem alookup_of_mem_nodup {β : Type} {k : String} {v : β} {m : List (String × β)}
    (hn : (m.map Prod.fst).Nodup) (h : (k, v) ∈ m) : alookup k m = some v := by
  induction m with
  | nil => simp at h
  | cons p rest ih =>
    obtain ⟨k', v'⟩ := p
    simp only [List.map_cons, List.nodup_cons] at hn
    rcases List.mem_cons.mp h with h0 | h0
    · cases h0
      simp [alookup]
    · have hk : k' ≠ k := by
        rintro rfl
        exact hn.1 (by simpa using List.mem_map_of_mem Prod.fst h0)
      simp [alookup, hk, ih hn.2 h0]

theorem alookup_filter_pos {β : Type} {k : String} {v : β} {m : List (String × β)}
    {p : String × β → Bool} (h : alookup k m = some v) (hp : p (k, v) = true) :
    alookup k (m.filter p) = some v := by
  induction m with
  | nil => simp [alookup] at h
  | cons q rest ih =>
    obtain ⟨k', v'⟩ := q
    by_cases h' : k' = k
    · subst h'
      simp [alookup] at h
      subst h
      simp [List.filter, hp, alookup]
    · simp only [alookup, if_neg h'] at h
      by_cases hq : p (k', v') = true
      · simp [List.filter, hq, alookup, h', ih h]
      · simp only [Bool.not_eq_true] at hq
        simp [List.filter, hq, ih h]

theorem alookup_filter_none {β : Type} {k : String} {m : List (String × β)}
    {p : String × β → Bool} (h : alookup k m = none) :
    alookup k (m.filter p) = none := by
  rw [alookup_eq_none_iff] at h ⊢
  intro hmem
  exact h (by
    rcases List.mem_map.mp hmem with ⟨q, hq, hfst⟩
    exact List.mem_map.mpr ⟨q, List.mem_of_mem_filter hq, hfst⟩)

theorem alookup_filter_neg {β : Type} {k : String} {v : β} {m : List (String × β)}
    {p : String × β → Bool} (hn : (m.map Prod.fst).Nodup)
    (h : alookup k m = some v) (hp : p (k, v) = false) :
    alookup k (m.filter p) = none := by
  rw [alookup_eq_none_iff]
  intro hmem
  rcases List.mem_map.mp hmem with ⟨⟨k₀, v₀⟩, hq, hfst⟩
  simp only at hfst
  subst hfst
  have hmem' : (k₀, v₀) ∈ m := List.mem_of_mem_filter hq
  have h1 : alookup k₀ m = some v₀ := alookup_of_mem_nodup hn hmem'
  rw [h] at h1
  have h2 : v₀ = v := (Option.some.inj h1).symm
  subst h2
  have h3 := (List.mem_filter.mp hq).2
  rw [hp] at h3
  exact Bool.noConfusion h3

theorem alookup_mapval {β γ : Type} (k : String) (f : β → γ) (m : List (String × β)) :
    alookup k (m.map (fun p => (p.1, f p.2))) = (alookup k m).map f := by
  induction m with
  | nil => simp [alookup]
  | cons p rest ih =>
    obtain ⟨k', v'⟩ := p
    by_cases h : k' = k
    · simp [alookup, h]
    · simp [alookup, h, ih]

theorem keys_mapval {β γ : Type} (f : β → γ) (m : List (String × β)) :
    (m.map (fun p => (p.1, f p.2))).map Prod.fst = m.map Prod.fst := by
  induction m with
  | nil => simp
  | cons p rest ih => simp [ih]

theorem keys_mapSet_mem {β : Type} {k : String} (v : β) {m : List (String × β)}
    (h : k ∈ m.map Prod.fst) : (mapSet k v m).map Prod.fst = m.map Prod.fst := by
  induction m with
  | nil => simp at h
  | cons p rest ih =>
    obtain ⟨k', v'⟩ := p
    by_cases h' : k' = k
    · subst h'
      simp [mapSet]
    · simp only [List.map_cons, List.mem_cons] at h
      rcases h with h | h
      · exact absurd h.symm h'
      · simp [mapSet, h', ih h]

theorem keys_mapSet_not_mem {β : Type} {k : String} (v : β) {m : List (String × β)}
    (h : k ∉ m.map Prod.fst) : (mapSet k v m).map Prod.fst = m.map Prod.fst ++ [k] := by
  induction m with
  | nil => simp [mapSet]
  | cons p rest ih =>
    obtain ⟨k', v'⟩ := p
    simp only [List.map_cons, List.mem_cons] at h
    push_neg at h
    simp [mapSet, Ne.symm h.1, ih h.2]

theorem nodup_keys_mapSet {β : Type} {k : String} (v : β) {m : List (String × β)}
    (hn : (m.map Prod.fst).Nodup) : ((mapSet k v m).map Prod.fst).Nodup := by
  by_cases h : k ∈ m.map Prod.fst
  · rwa [keys_mapSet_mem v h]
  · rw [keys_mapSet_not_mem v h]
    refine List.Nodup.append hn (List.nodup_singleton k) ?_
    intro a ha hb
    rw [List.mem_singleton] at hb
    subst hb
    exact h ha

theorem nodup_keys_filter {β : Type} {m : List (String × β)} (p : String × β → Bool)
    (hn : (m.map Prod.fst).Nodup) : ((m.filter p).map Prod.fst).Nodup :=
  List.Nodup.sublist ((List.filter_sublist m).map Prod.fst) hn

namespace InMem

/-! ### Characterization of the sweep -/

theorem cleanupOldMessages_eq (now : Nat) (s : Storage) :
    cleanupOldMessages now s =
      { links := (deadOf now s).foldl (fun ls p => removeFromLink ls p.2.linkId p.1) s.links,
        conversations := (cleanedConvs now s).filter (fun p => !(doomedConv now p.2)) } := rfl

theorem cleanupConv_id (now : Nat) (c : Conversation) : (cleanupConv now c).id = c.id := by
  unfold cleanupConv
  dsimp only
  split <;> rfl

theorem cleanupConv_linkId (now : Nat) (c : Conversation) :
    (cleanupConv now c).linkId = c.linkId := by
  unfold cleanupConv
  dsimp only
  split <;> rfl

theorem cleanupConv_flag (now : Nat) (c : Conversation) :
    (cleanupConv now c).hasMessages = c.hasMessages := by
  unfold cleanupConv
  dsimp only
  split <;> rfl

theorem cleanupConv_messages (now : Nat) (c : Conversation) :
    (cleanupConv now c).messages = c.messages.filter (msgKept now) := by
  unfold cleanupConv
  dsimp only
  split <;> rfl

theorem cleanupConv_createdAt (now : Nat) (c : Conversation) :
    (cleanupConv now c).createdAt = c.createdAt := by
  unfold cleanupConv
  dsimp only
  split <;> rfl

theorem alookup_cleanedConvs (now : Nat) (s : Storage) (cid : String) :
    alookup cid (cleanedConvs now s) = (alookup cid s.conversations).map (cleanupConv now) := by
  unfold cleanedConvs
  exact alookup_mapval cid (cleanupConv now) s.conversations

theorem keys_cleanedConvs (now : Nat) (s : Storage) :
    (cleanedConvs now s).map Prod.fst = s.conversations.map Prod.fst :=
  keys_mapval (cleanupConv now) s.conversations

/-- Lookup of a conversation after the sweep: it is cleaned, and absent
exactly when the cleaned record is empty and past the one-hour grace. -/
theorem cleanup_conv_lookup (now : Nat) (s : Storage) (cid : String)
    (hn : (s.conversations.map Prod.fst).Nodup) :
    alookup cid (cleanupOldMessages now s).conversations =
      match alookup cid s.conversations with
      | none => none
      | some c =>
        if doomedConv now (cleanupConv now c) then none else some (cleanupConv now c) := by
  rw [cleanupOldMessages_eq]
  have hn1 : ((cleanedConvs now s).map Prod.fst).Nodup := by
    rw [keys_cleanedConvs]; exact hn
  cases h : alookup cid s.conversations with
  | none =>
    have h1 : alookup cid (cleanedConvs now s) = none := by
      rw [alookup_cleanedConvs, h]; rfl
    exact alookup_filter_none h1
  | some c =>
    have h1 : alookup cid (cleanedConvs now s) = some (cleanupConv now c) := by
      rw [alookup_cleanedConvs, h]; rfl
    dsimp only
    by_cases hd : doomedConv now (cleanupConv now c) = true
    · rw [if_pos hd]
      exact alookup_filter_neg hn1 h1 (by simp [hd])
    · rw [if_neg hd]
      rw [Bool.not_eq_true] at hd
      exact alookup_filter_pos h1 (by simp [hd])

theorem alookup_removeFromLink (links : List (String × Link)) (lid' cid lid : String) :
    alookup lid (removeFromLink links lid' cid) =
      if lid' = lid then
        (alookup lid links).map
          (fun l => { l with conversations := l.conversations.filter (fun i => decide (i ≠ cid)) })
      else alookup lid links := by
  unfold removeFromLink
  cases h : alookup lid' links with
  | none =>
    by_cases he : lid' = lid
    · subst he
      rw [if_pos rfl, h]
      rfl
    · rw [if_neg he]
  | some l =>
    by_cases he : lid' = lid
    · subst he
      rw [if_pos rfl, alookup_mapSet_self, h]
      rfl
    · rw [if_neg he, alookup_mapSet_ne _ _ he]

/-- Lookup of a link after the deletion fold of the sweep: its conversation
list is filtered by `keepId`. -/
theorem alookup_purge (dead : List (String × Conversation)) (links : List (String × Link))
    (lid : String) :
    alookup lid (dead.foldl (fun ls p => removeFromLink ls p.2.linkId p.1) links) =
      (alookup lid links).map
        (fun l => { l with conversations := l.conversations.filter (keepId dead lid) }) := by
  induction dead generalizing links with
  | nil =>
    rw [List.foldl_nil]
    cases alookup lid links with
    | none => rfl
    | some l =>
      simp only [Option.map_some']
      have h0 : l.conversations.filter (keepId [] lid) = l.conversations := by
        apply List.filter_eq_self.mpr
        intro a _
        rfl
      rw [h0]
  | cons p dead ih =>
    rw [List.foldl_cons, ih, alookup_removeFromLink]
    by_cases he : p.2.linkId = lid
    · rw [if_pos he]
      cases alookup lid links with
      | none => rfl
      | some l =>
        simp only [Option.map_some']
        rw [List.filter_filter]
        have hf : l.conversations.filter (fun a => keepId dead lid a && decide (a ≠ p.1)) =
            l.conversations.filter (keepId (p :: dead) lid) := by
          apply List.filter_congr
          intro i _
          have h2 : (decide (i ≠ p.1)) = !(decide (p.1 = i)) := by
            by_cases hip : i = p.1
            · subst hip; simp
            · have h3 : ¬(p.1 = i) := fun hh => hip hh.symm
              simp [hip, h3]
          simp only [keepId, List.any_cons, he, decide_True, Bool.and_true, Bool.not_or]
          rw [h2, Bool.and_comm]
        rw [hf]
    · rw [if_neg he]
      cases alookup lid links with
      | none => rfl
      | some l =>
        simp only [Option.map_some']
        have hf : l.conversations.filter (keepId dead lid) =
            l.conversations.filter (keepId (p :: dead) lid) := by
          apply List.filter_congr
          intro i _
          have h3 : decide (p.2.linkId = lid) = false := by simp [he]
          simp [keepId, List.any_cons, h3]
        rw [hf]

theorem cleanup_links_lookup (now : Nat) (s : Storage) (lid : String) :
    alookup lid (cleanupOldMessages now s).links =
      (alookup lid s.links).map
        (fun l => { l with conversations := l.conversations.filter (keepId (deadOf now s) lid) }) := by
  rw [cleanupOldMessages_eq]
  exact alookup_purge (deadOf now s) s.links lid

/-! ### Preservation of the invariant -/

theorem inv_empty : Inv emptyStorage := by
  refine ⟨?_, ?_, ?_, ?_, ?_, ?_, ?_⟩ <;>
    first
      | exact List.nodup_nil
      | · intro a b h
          cases h
      | · intro a b c h
          cases h

theorem inv_createLink {s : Storage} (hinv : Inv s) {lid : String} (cr : String) (now : Nat)
    (hfresh : alookup lid s.links = none) : Inv (createLink lid cr now s) := by
  unfold createLink
  set newL : Link := { id := lid, creatorId := cr, createdAt := now, conversations := [] } with hnewL
  refine ⟨hinv.convsNodup, ?_, ?_, hinv.conv_id_eq, ?_, hinv.nonempty_flag, ?_⟩
  · intro lid' l' hl'
    by_cases h : lid = lid'
    · subst h
      rw [alookup_mapSet_self] at hl'
      cases hl'
      rfl
    · rw [alookup_mapSet_ne _ _ h] at hl'
      exact hinv.linkId_eq lid' l' hl'
  · intro lid' l' hl' cid hcid
    by_cases h : lid = lid'
    · subst h
      rw [alookup_mapSet_self] at hl'
      cases hl'
      simp at hcid
    · rw [alookup_mapSet_ne _ _ h] at hl'
      exact hinv.link_back lid' l' hl' cid hcid
  · intro cid c hc
    by_cases h : lid = c.linkId
    · rw [← h, alookup_mapSet_self]
      rfl
    · rw [alookup_mapSet_ne _ _ h]
      exact hinv.conv_link cid c hc
  · intro cid c l hc hl
    by_cases h : lid = c.linkId
    · exfalso
      have hs := hinv.conv_link cid c hc
      rw [← h, hfresh] at hs
      cases hs
    · rw [alookup_mapSet_ne _ _ h] at hl
      exact hinv.flag_mem cid c l hc hl

theorem inv_createConversation {s : Storage} (hinv : Inv s) (lid : String) {cid : String}
    (now : Nat) (hfresh : alookup cid s.conversations = none) :
    Inv (createConversation lid cid now s).1 := by
  unfold createConversation
  cases hl : alookup lid s.links with
  | none => exact hinv
  | some l0 =>
    dsimp only
    set newC : Conversation :=
      { id := cid, linkId := lid, messages := [], createdAt := now,
        lastMessage := now, hasMessages := false } with hnewC
    have hfreshk : cid ∉ s.conversations.map Prod.fst := by
      rw [← alookup_eq_none_iff]
      exact hfresh
    refine ⟨nodup_keys_mapSet _ hinv.convsNodup, hinv.linkId_eq, ?_, ?_, ?_, ?_, ?_⟩
    · intro lid' l' hl' cid' hcid'
      rcases hinv.link_back lid' l' hl' cid' hcid' with ⟨c, hc, hcl⟩
      have hne : cid ≠ cid' := by
        rintro rfl
        rw [hfresh] at hc
        cases hc
      exact ⟨c, by rw [alookup_mapSet_ne _ _ hne]; exact hc, hcl⟩
    · intro cid' c hc
      by_cases h : cid = cid'
      · subst h
        rw [alookup_mapSet_self] at hc
        cases hc
        rfl
      · rw [alookup_mapSet_ne _ _ h] at hc
        exact hinv.conv_id_eq cid' c hc
    · intro cid' c hc
      by_cases h : cid = cid'
      · subst h
        rw [alookup_mapSet_self] at hc
        cases hc
        rw [hl]
        rfl
      · rw [alookup_mapSet_ne _ _ h] at hc
        exact hinv.conv_link cid' c hc
    · intro cid' c hc hne
      by_cases h : cid = cid'
      · subst h
        rw [alookup_mapSet_self] at hc
        cases hc
        simp at hne
      · rw [alookup_mapSet_ne _ _ h] at hc
        exact hinv.nonempty_flag cid' c hc hne
    · intro cid' c l hc hl'
      by_cases h : cid = cid'
      · subst h
        rw [alookup_mapSet_self] at hc
        cases hc
        constructor
        · intro hfl
          cases hfl
        · intro hmem
          exfalso
          rcases hinv.link_back _ _ hl' cid hmem with ⟨c0, hc0, _⟩
          rw [hfresh] at hc0
          cases hc0
      · rw [alookup_mapSet_ne _ _ h] at hc
        exact hinv.flag_mem cid' c l hc hl'

/-- Updating one existing conversation in place (links untouched) preserves
the invariant, provided the new record keeps id and link, its flag matches
membership in the owning link's list, and non-empty messages imply the flag. -/
theorem inv_set_conv {s : Storage} (hinv : Inv s) {cid : String} {conv c' : Conversation}
    (hc : alookup cid s.conversations = some conv)
    (hid : c'.id = conv.id) (hlink : c'.linkId = conv.linkId)
    (hflag : ∀ l, alookup conv.linkId s.links = some l →
      (c'.hasMessages = true ↔ cid ∈ l.conversations))
    (hne : c'.messages ≠ [] → c'.hasMessages = true) :
    Inv { links := s.links, conversations := mapSet cid c' s.conversations } := by
  refine ⟨nodup_keys_mapSet _ hinv.convsNodup, hinv.linkId_eq, ?_, ?_, ?_, ?_, ?_⟩
  · intro lid l hl cid' hcid'
    rcases hinv.link_back lid l hl cid' hcid' with ⟨c0, hc0, hcl⟩
    by_cases h : cid = cid'
    · subst h
      rw [hc] at hc0
      cases hc0
      exact ⟨c', by rw [alookup_mapSet_self], by rw [hlink]; exact hcl⟩
    · exact ⟨c0, by rw [alookup_mapSet_ne _ _ h]; exact hc0, hcl⟩
  · intro cid' c hc'
    by_cases h : cid = cid'
    · subst h
      rw [alookup_mapSet_self] at hc'
      cases hc'
      rw [hid]
      exact hinv.conv_id_eq cid conv hc
    · rw [alookup_mapSet_ne _ _ h] at hc'
      exact hinv.conv_id_eq cid' c hc'
  · intro cid' c hc'
    by_cases h : cid = cid'
    · subst h
      rw [alookup_mapSet_self] at hc'
      cases hc'
      rw [hlink]
      exact hinv.conv_link cid conv hc
    · rw [alookup_mapSet_ne _ _ h] at hc'
      exact hinv.conv_link cid' c hc'
  · intro cid' c hc' hnem
    by_cases h : cid = cid'
    · subst h
      rw [alookup_mapSet_self] at hc'
      cases hc'
      exact hne hnem
    · rw [alookup_mapSet_ne _ _ h] at hc'
      exact hinv.nonempty_flag cid' c hc' hnem
  · intro cid' c l hc' hl
    by_cases h : cid = cid'
    · subst h
      rw [alookup_mapSet_self] at hc'
      cases hc'
      rw [hlink] at hl
      exact hflag l hl
    · rw [alookup_mapSet_ne _ _ h] at hc'
      exact hinv.flag_mem cid' c l hc' hl

theorem alookup_mapSet_isSome {β : Type} (k k' : String) (v : β) (m : List (String × β))
    (h : (Anonym.alookup k m).isSome = true) :
    (Anonym.alookup k (Anonym.mapSet k' v m)).isSome = true := by
  by_cases he : k' = k
  · subst he
    rw [alookup_mapSet_self]
    rfl
  · rw [alookup_mapSet_ne _ _ he]
    exact h

/-- An id that survived cleaning is never filtered out of any link list. -/
theorem keepId_true_of_kept {now : Nat} {s : Storage}
    (hn : (s.conversations.map Prod.fst).Nodup)
    {cid : String} {c0 : Conversation} (hc0 : alookup cid s.conversations = some c0)
    (hd : doomedConv now (cleanupConv now c0) = false) (lid : String) :
    keepId (deadOf now s) lid cid = true := by
  have hany : ((deadOf now s).any fun p => decide (p.1 = cid) && decide (p.2.linkId = lid))
      = false := by
    by_contra hanyc
    rw [Bool.not_eq_false, List.any_eq_true] at hanyc
    rcases hanyc with ⟨p, hp, hpp⟩
    rw [Bool.and_eq_true, decide_eq_true_eq, decide_eq_true_eq] at hpp
    have hpc : p ∈ cleanedConvs now s := List.mem_of_mem_filter hp
    have hn1 : ((cleanedConvs now s).map Prod.fst).Nodup := by
      rw [keys_cleanedConvs]; exact hn
    have hl2 : alookup p.1 (cleanedConvs now s) = some p.2 :=
      alookup_of_mem_nodup hn1 (by rw [Prod.mk.eta]; exact hpc)
    rw [hpp.1, alookup_cleanedConvs, hc0] at hl2
    simp only [Option.map_some'] at hl2
    have hp2 : p.2 = cleanupConv now c0 := (Option.some.inj hl2).symm
    have hdoom := (List.mem_filter.mp hp).2
    simp only at hdoom
    rw [hp2, hd] at hdoom
    exact Bool.noConfusion hdoom
  unfold keepId
  rw [hany]
  rfl

theorem inv_sendMessage {s : Storage} (hinv : Inv s) (convId text : String) (isCreator : Bool)
    (now : Nat) (msgId : String) : Inv (sendMessage convId text isCreator now msgId s).1 := by
  unfold sendMessage
  cases hc : alookup convId s.conversations with
  | none => exact hinv
  | some conv =>
    dsimp only
    by_cases hwe : conv.messages.isEmpty = true
    · rw [if_pos hwe]
      cases hl : alookup conv.linkId s.links with
      | none =>
        exfalso
        have hs := hinv.conv_link convId conv hc
        rw [hl] at hs
        cases hs
      | some link =>
        dsimp only
        by_cases hmem : convId ∈ link.conversations
        · rw [if_pos hmem]
          refine inv_set_conv hinv hc rfl rfl ?_ (fun _ => rfl)
          intro l hl'
          rw [hl] at hl'
          cases hl'
          exact ⟨fun _ => hmem, fun _ => rfl⟩
        · rw [if_neg hmem]
          refine ⟨nodup_keys_mapSet _ hinv.convsNodup, ?_, ?_, ?_, ?_, ?_, ?_⟩
          · intro lid₀ l₀ hl₀
            by_cases h : conv.linkId = lid₀
            · subst h
              rw [alookup_mapSet_self] at hl₀
              cases hl₀
              exact hinv.linkId_eq conv.linkId link hl
            · rw [alookup_mapSet_ne _ _ h] at hl₀
              exact hinv.linkId_eq _ _ hl₀
          · intro lid₀ l₀ hl₀ cid₀ hcid₀
            by_cases h : conv.linkId = lid₀
            · subst h
              rw [alookup_mapSet_self] at hl₀
              cases hl₀
              rcases List.mem_append.mp hcid₀ with hin | hin
              · rcases hinv.link_back _ _ hl cid₀ hin with ⟨c₀, hc₀, hcl⟩
                by_cases hq : convId = cid₀
                · subst hq
                  exact ⟨_, alookup_mapSet_self _ _ _, rfl⟩
                · refine ⟨c₀, ?_, hcl⟩
                  rw [alookup_mapSet_ne _ _ hq]
                  exact hc₀
              · have hq : cid₀ = convId := by simpa using hin
                subst hq
                exact ⟨_, alookup_mapSet_self _ _ _, rfl⟩
            · rw [alookup_mapSet_ne _ _ h] at hl₀
              rcases hinv.link_back _ _ hl₀ cid₀ hcid₀ with ⟨c₀, hc₀, hcl⟩
              by_cases hq : convId = cid₀
              · exfalso
                subst hq
                rw [hc] at hc₀
                cases hc₀
                exact h hcl
              · refine ⟨c₀, ?_, hcl⟩
                rw [alookup_mapSet_ne _ _ hq]
                exact hc₀
          · intro cid₀ c₀ hc₀
            by_cases hq : convId = cid₀
            · subst hq
              rw [alookup_mapSet_self] at hc₀
              cases hc₀
              exact hinv.conv_id_eq convId conv hc
            · rw [alookup_mapSet_ne _ _ hq] at hc₀
              exact hinv.conv_id_eq cid₀ c₀ hc₀
          · intro cid₀ c₀ hc₀
            by_cases hq : convId = cid₀
            · subst hq
              rw [alookup_mapSet_self] at hc₀
              cases hc₀
              rw [alookup_mapSet_self]
              rfl
            · rw [alookup_mapSet_ne _ _ hq] at hc₀
              exact alookup_mapSet_isSome _ _ _ _ (hinv.conv_link _ _ hc₀)
          · intro cid₀ c₀ hc₀ hnem
            by_cases hq : convId = cid₀
            · subst hq
              rw [alookup_mapSet_self] at hc₀
              cases hc₀
              rfl
            · rw [alookup_mapSet_ne _ _ hq] at hc₀
              exact hinv.nonempty_flag cid₀ c₀ hc₀ hnem
          · intro cid₀ c₀ l₀ hc₀ hl₀
            by_cases hq : convId = cid₀
            · subst hq
              rw [alookup_mapSet_self] at hc₀
              cases hc₀
              rw [alookup_mapSet_self] at hl₀
              cases hl₀
              constructor
              · intro _
                exact List.mem_append.mpr (Or.inr (by simp))
              · intro _
                rfl
            · rw [alookup_mapSet_ne _ _ hq] at hc₀
              by_cases h : conv.linkId = c₀.linkId
              · rw [← h] at hl₀
                rw [alookup_mapSet_self] at hl₀
                cases hl₀
                have hbase := hinv.flag_mem cid₀ c₀ link hc₀ (by rw [← h]; exact hl)
                rw [hbase]
                have hne : ¬(cid₀ = convId) := fun hh => hq hh.symm
                simp [List.mem_append, hne]
              · rw [alookup_mapSet_ne _ _ h] at hl₀
                exact hinv.flag_mem cid₀ c₀ l₀ hc₀ hl₀
    · rw [if_neg hwe]
      have hnem : conv.messages ≠ [] := by
        intro hh
        exact hwe (by rw [hh]; rfl)
      refine inv_set_conv hinv hc rfl rfl ?_ ?_
      · intro l hl'
        exact hinv.flag_mem convId conv l hc hl'
      · intro _
        exact hinv.nonempty_flag convId conv hc hnem

theorem inv_cleanup {s : Storage} (hinv : Inv s) (now : Nat) :
    Inv (cleanupOldMessages now s) := by
  have hn1 : ((cleanedConvs now s).map Prod.fst).Nodup := by
    rw [keys_cleanedConvs]; exact hinv.convsNodup
  refine ⟨?_, ?_, ?_, ?_, ?_, ?_, ?_⟩
  · rw [cleanupOldMessages_eq]
    exact nodup_keys_filter _ hn1
  · intro lid l hl
    rw [cleanup_links_lookup] at hl
    cases hsl : alookup lid s.links with
    | none =>
      rw [hsl] at hl
      cases hl
    | some l0 =>
      rw [hsl] at hl
      simp only [Option.map_some'] at hl
      cases hl
      exact hinv.linkId_eq lid l0 hsl
  · intro lid l hl cid hcid
    rw [cleanup_links_lookup] at hl
    cases hsl : alookup lid s.links with
    | none =>
      rw [hsl] at hl
      cases hl
    | some l0 =>
      rw [hsl] at hl
      simp only [Option.map_some'] at hl
      cases hl
      have hm := List.mem_filter.mp hcid
      rcases hinv.link_back lid l0 hsl cid hm.1 with ⟨c0, hc0, hcl⟩
      have hd : doomedConv now (cleanupConv now c0) = false := by
        by_contra hdc
        rw [Bool.not_eq_false] at hdc
        have hmem1 : (cid, cleanupConv now c0) ∈ cleanedConvs now s := by
          apply mem_of_alookup
          rw [alookup_cleanedConvs, hc0]
          rfl
        have hmem2 : (cid, cleanupConv now c0) ∈ deadOf now s := by
          apply List.mem_filter.mpr
          exact ⟨hmem1, by simpa using hdc⟩
        have hany : ((deadOf now s).any
            fun p => decide (p.1 = cid) && decide (p.2.linkId = lid)) = true := by
          apply List.any_eq_true.mpr
          refine ⟨(cid, cleanupConv now c0), hmem2, ?_⟩
          simp [cleanupConv_linkId, hcl]
        have hk := hm.2
        unfold keepId at hk
        rw [hany] at hk
        exact Bool.noConfusion hk
      refine ⟨cleanupConv now c0, ?_, ?_⟩
      · rw [cleanup_conv_lookup now s cid hinv.convsNodup, hc0]
        dsimp only
        rw [if_neg (by rw [hd]; exact Bool.noConfusion)]
      · rw [cleanupConv_linkId]
        exact hcl
  · intro cid c hcv
    rw [cleanup_conv_lookup now s cid hinv.convsNodup] at hcv
    cases hc0 : alookup cid s.conversations with
    | none =>
      rw [hc0] at hcv
      cases hcv
    | some c0 =>
      rw [hc0] at hcv
      dsimp only at hcv
      by_cases hd : doomedConv now (cleanupConv now c0) = true
      · rw [if_pos hd] at hcv
        cases hcv
      · rw [if_neg hd] at hcv
        cases hcv
        rw [cleanupConv_id]
        exact hinv.conv_id_eq cid c0 hc0
  · intro cid c hcv
    rw [cleanup_conv_lookup now s cid hinv.convsNodup] at hcv
    cases hc0 : alookup cid s.conversations with
    | none =>
      rw [hc0] at hcv
      cases hcv
    | some c0 =>
      rw [hc0] at hcv
      dsimp only at hcv
      by_cases hd : doomedConv now (cleanupConv now c0) = true
      · rw [if_pos hd] at hcv
        cases hcv
      · rw [if_neg hd] at hcv
        cases hcv
        rw [cleanupConv_linkId, cleanup_links_lookup]
        have hs := hinv.conv_link cid c0 hc0
        cases hsl : alookup c0.linkId s.links with
        | none =>
          rw [hsl] at hs
          cases hs
        | some l0 => rfl
  · intro cid c hcv hnem
    rw [cleanup_conv_lookup now s cid hinv.convsNodup] at hcv
    cases hc0 : alookup cid s.conversations with
    | none =>
      rw [hc0] at hcv
      cases hcv
    | some c0 =>
      rw [hc0] at hcv
      dsimp only at hcv
      by_cases hd : doomedConv now (cleanupConv now c0) = true
      · rw [if_pos hd] at hcv
        cases hcv
      · rw [if_neg hd] at hcv
        cases hcv
        rw [cleanupConv_flag]
        rw [cleanupConv_messages] at hnem
        have h0 : c0.messages ≠ [] := by
          intro hh
          rw [hh] at hnem
          exact hnem rfl
        exact hinv.nonempty_flag cid c0 hc0 h0
  · intro cid c l hcv hlv
    rw [cleanup_conv_lookup now s cid hinv.convsNodup] at hcv
    cases hc0 : alookup cid s.conversations with
    | none =>
      rw [hc0] at hcv
      cases hcv
    | some c0 =>
      rw [hc0] at hcv
      dsimp only at hcv
      by_cases hd : doomedConv now (cleanupConv now c0) = true
      · rw [if_pos hd] at hcv
        cases hcv
      · rw [if_neg hd] at hcv
        cases hcv
        rw [cleanupConv_linkId, cleanup_links_lookup] at hlv
        cases hsl : alookup c0.linkId s.links with
        | none =>
          rw [hsl] at hlv
          cases hlv
        | some l0 =>
          rw [hsl] at hlv
          simp only [Option.map_some'] at hlv
          cases hlv
          rw [cleanupConv_flag]
          have hbase := hinv.flag_mem cid c0 l0 hc0 hsl
          rw [hbase]
          rw [Bool.not_eq_true] at hd
          have hkeep := keepId_true_of_kept hinv.convsNodup hc0 hd c0.linkId
          constructor
          · intro hmm
            exact List.mem_filter.mpr ⟨hmm, hkeep⟩
          · intro hmm
            exact (List.mem_filter.mp hmm).1

/-! ### Trace machinery -/

theorem execState_append (s : Storage) (xs ys : List Op) :
    execState s (xs ++ ys) = execState (execState s xs) ys := by
  induction xs generalizing s with
  | nil => rfl
  | cons op rest ih => simp [execState, ih]

theorem execState_concat (s : Storage) (xs : List Op) (op : Op) :
    execState s (xs ++ [op]) = stepState (execState s xs) op := by
  rw [execState_append]
  rfl

theorem execEvents_append (s : Storage) (xs ys : List Op) :
    execEvents s (xs ++ ys) = execEvents s xs ++ execEvents (execState s xs) ys := by
  induction xs generalizing s with
  | nil => rfl
  | cons op rest ih => simp [execEvents, execState, ih]

theorem execEvents_concat (s : Storage) (xs : List Op) (op : Op) :
    execEvents s (xs ++ [op]) = execEvents s xs ++ stepEvents (execState s xs) op := by
  rw [execEvents_append]
  simp [execEvents]

theorem runState_concat (xs : List Op) (op : Op) :
    runState (xs ++ [op]) = stepState (runState xs) op := execState_concat emptyStorage xs op

theorem runEvents_concat (xs : List Op) (op : Op) :
    runEvents (xs ++ [op]) = runEvents xs ++ stepEvents (runState xs) op :=
  execEvents_concat emptyStorage xs op

theorem convIdsOf_append (xs ys : List Op) :
    convIdsOf (xs ++ ys) = convIdsOf xs ++ convIdsOf ys := by
  induction xs with
  | nil => rfl
  | cons op rest ih => cases op <;> simp [convIdsOf, ih]

theorem linkIdsOf_append (xs ys : List Op) :
    linkIdsOf (xs ++ ys) = linkIdsOf xs ++ linkIdsOf ys := by
  induction xs with
  | nil => rfl
  | cons op rest ih => cases op <;> simp [linkIdsOf, ih]

theorem wfFrom_append (u xs ys : List Op) :
    wfFrom u (xs ++ ys) = (wfFrom u xs && wfFrom (u ++ xs) ys) := by
  induction xs generalizing u with
  | nil => simp [wfFrom]
  | cons op rest ih =>
    show (freshOp u op && wfFrom (u ++ [op]) (rest ++ ys)) = _
    rw [ih]
    show _ = ((freshOp u op && wfFrom (u ++ [op]) rest) && wfFrom (u ++ op :: rest) ys)
    rw [Bool.and_assoc]
    have hap : u ++ op :: rest = (u ++ [op]) ++ rest := by simp
    rw [hap]

theorem wfTrace_take (ops : List Op) (h : WFTrace ops) (n : Nat) : WFTrace (ops.take n) := by
  unfold WFTrace at *
  have hsplit : ops = ops.take n ++ ops.drop n := (List.take_append_drop n ops).symm
  rw [hsplit, wfFrom_append, Bool.and_eq_true] at h
  exact h.1

theorem wfTrace_append_left (xs ys : List Op) (h : WFTrace (xs ++ ys)) : WFTrace xs := by
  unfold WFTrace at *
  rw [wfFrom_append, Bool.and_eq_true] at h
  exact h.1

theorem wfTrace_of_concat (ops : List Op) (op : Op) (h : WFTrace (ops ++ [op])) :
    WFTrace ops ∧ freshOp ops op = true := by
  unfold WFTrace at h
  rw [wfFrom_append, Bool.and_eq_true] at h
  refine ⟨h.1, ?_⟩
  have h2 := h.2
  simp only [List.nil_append, wfFrom, Bool.and_true] at h2
  exact h2

theorem wfTrace_split (p : List Op) (op : Op) (q : List Op) (h : WFTrace (p ++ op :: q)) :
    WFTrace p ∧ freshOp p op = true := by
  have h1 : p ++ op :: q = (p ++ [op]) ++ q := by simp
  rw [h1] at h
  have h2 := wfTrace_append_left _ _ h
  exact wfTrace_of_concat p op h2

theorem stepState_conv_isSome (s : Storage) (op : Op) (cid : String)
    (h : (alookup cid (stepState s op).conversations).isSome = true) :
    (alookup cid s.conversations).isSome = true ∨
      (∃ lid now, op = Op.createConversation lid cid now) := by
  cases op with
  | createLink lid cr now =>
    left
    exact h
  | createConversation lid cid' now =>
    simp only [stepState, createConversation] at h
    cases hl : alookup lid s.links with
    | none =>
      rw [hl] at h
      left
      exact h
    | some l0 =>
      rw [hl] at h
      dsimp only at h
      by_cases hq : cid' = cid
      · subst hq
        right
        exact ⟨lid, now, rfl⟩
      · rw [alookup_mapSet_ne _ _ hq] at h
        left
        exact h
  | sendMessage cid' text isC now mid =>
    left
    simp only [stepState, sendMessage] at h
    cases hc : alookup cid' s.conversations with
    | none =>
      rw [hc] at h
      exact h
    | some conv =>
      rw [hc] at h
      dsimp only at h
      by_cases hq : cid' = cid
      · subst hq
        rw [hc]
        rfl
      · by_cases hwe : conv.messages.isEmpty = true
        · rw [if_pos hwe] at h
          cases hl : alookup conv.linkId s.links with
          | none =>
            rw [hl] at h
            dsimp only at h
            rw [alookup_mapSet_ne _ _ hq] at h
            exact h
          | some link =>
            rw [hl] at h
            dsimp only at h
            by_cases hmem : cid' ∈ link.conversations
            · rw [if_pos hmem] at h
              rw [alookup_mapSet_ne _ _ hq] at h
              exact h
            · rw [if_neg hmem] at h
              rw [alookup_mapSet_ne _ _ hq] at h
              exact h
        · rw [if_neg hwe] at h
          rw [alookup_mapSet_ne _ _ hq] at h
          exact h
  | cleanup now =>
    left
    rw [alookup_isSome_iff] at h ⊢
    simp only [stepState] at h
    rw [cleanupOldMessages_eq] at h
    simp only at h
    have h2 : cid ∈ (cleanedConvs now s).map Prod.fst := by
      rcases List.mem_map.mp h with ⟨p, hp, hfst⟩
      exact List.mem_map.mpr ⟨p, List.mem_of_mem_filter hp, hfst⟩
    rw [keys_cleanedConvs] at h2
    exact h2

theorem stepState_link_isSome (s : Storage) (op : Op) (lid : String)
    (h : (alookup lid (stepState s op).links).isSome = true) :
    (alookup lid s.links).isSome = true ∨ (∃ cr now, op = Op.createLink lid cr now) := by
  cases op with
  | createLink lid' cr now =>
    by_cases hq : lid' = lid
    · subst hq
      right
      exact ⟨cr, now, rfl⟩
    · left
      simp only [stepState, createLink] at h
      rw [alookup_mapSet_ne _ _ hq] at h
      exact h
  | createConversation lid' cid now =>
    left
    simp only [stepState, createConversation] at h
    cases hl : alookup lid' s.links with
    | none =>
      rw [hl] at h
      exact h
    | some l0 =>
      rw [hl] at h
      exact h
  | sendMessage cid text isC now mid =>
    left
    simp only [stepState, sendMessage] at h
    cases hc : alookup cid s.conversations with
    | none =>
      rw [hc] at h
      exact h
    | some conv =>
      rw [hc] at h
      dsimp only at h
      by_cases hwe : conv.messages.isEmpty = true
      · rw [if_pos hwe] at h
        cases hl : alookup conv.linkId s.links with
        | none =>
          rw [hl] at h
          exact h
        | some link =>
          rw [hl] at h
          dsimp only at h
          by_cases hmem : cid ∈ link.conversations
          · rw [if_pos hmem] at h
            exact h
          · rw [if_neg hmem] at h
            by_cases hq : conv.linkId = lid
            · subst hq
              rw [hl]
              rfl
            · rw [alookup_mapSet_ne _ _ hq] at h
              exact h
      · rw [if_neg hwe] at h
        exact h
  | cleanup now =>
    left
    simp only [stepState] at h
    rw [cleanup_links_lookup] at h
    cases hsl : alookup lid s.links with
    | none =>
      rw [hsl] at h
      cases h
    | some l0 => rfl

theorem conv_key_created (ops : List Op) (cid : String)
    (h : (alookup cid (runState ops).conversations).isSome = true) : cid ∈ convIdsOf ops := by
  induction ops using List.reverseRecOn with
  | nil => cases h
  | append_singleton ops op ih =>
    rw [runState_concat] at h
    rcases stepState_conv_isSome _ _ _ h with h0 | ⟨lid, now, rfl⟩
    · rw [convIdsOf_append]
      exact List.mem_append_left _ (ih h0)
    · rw [convIdsOf_append]
      apply List.mem_append_right
      simp [convIdsOf]

theorem link_key_created (ops : List Op) (lid : String)
    (h : (alookup lid (runState ops).links).isSome = true) : lid ∈ linkIdsOf ops := by
  induction ops using List.reverseRecOn with
  | nil => cases h
  | append_singleton ops op ih =>
    rw [runState_concat] at h
    rcases stepState_link_isSome _ _ _ h with h0 | ⟨cr, now, rfl⟩
    · rw [linkIdsOf_append]
      exact List.mem_append_left _ (ih h0)
    · rw [linkIdsOf_append]
      apply List.mem_append_right
      simp [linkIdsOf]

/-- Every state reachable by a well-formed trace satisfies the invariant. -/
theorem inv_runState (ops : List Op) (h : WFTrace ops) : Inv (runState ops) := by
  induction ops using List.reverseRecOn with
  | nil => exact inv_empty
  | append_singleton ops op ih =>
    rcases wfTrace_of_concat ops op h with ⟨h1, h2⟩
    have hinv := ih h1
    rw [runState_concat]
    cases op with
    | createLink lid cr now =>
      apply inv_createLink hinv cr now
      cases hl : alookup lid (runState ops).links with
      | none => rfl
      | some l0 =>
        exfalso
        have hm := link_key_created ops lid (by rw [hl]; rfl)
        simp [freshOp] at h2
        exact h2 hm
    | createConversation lid cid now =>
      apply inv_createConversation hinv lid now
      cases hc : alookup cid (runState ops).conversations with
      | none => rfl
      | some c0 =>
        exfalso
        have hm := conv_key_created ops cid (by rw [hc]; rfl)
        simp [freshOp] at h2
        exact h2 hm
    | sendMessage cid text isC now mid => exact inv_sendMessage hinv cid text isC now mid
    | cleanup now => exact inv_cleanup hinv now

/-! ### History lemmas -/

/-- Effect of a send on the targeted conversation: the trimmed message is
appended, `lastMessage` is set, and the flag becomes true exactly when the
conversation was empty or already promoted. -/
theorem send_self_lookup (s : Storage) (cid text : String) (isC : Bool) (now : Nat)
    (mid : String) {conv : Conversation} (hc : alookup cid s.conversations = some conv) :
    ∃ c', alookup cid (sendMessage cid text isC now mid s).1.conversations = some c' ∧
      c'.messages = conv.messages ++
        [{ text := jsTrim text, isCreator := isC, timestamp := now, id := mid }] ∧
      c'.lastMessage = now ∧ c'.id = conv.id ∧ c'.linkId = conv.linkId ∧
      c'.createdAt = conv.createdAt ∧
      c'.hasMessages = (conv.messages.isEmpty || conv.hasMessages) := by
  unfold sendMessage
  rw [hc]
  dsimp only
  by_cases hwe : conv.messages.isEmpty = true
  · rw [if_pos hwe]
    cases hl : alookup conv.linkId s.links with
    | none =>
      dsimp only
      exact ⟨_, alookup_mapSet_self _ _ _, rfl, rfl, rfl, rfl, rfl, by rw [hwe]; rfl⟩
    | some link =>
      dsimp only
      by_cases hmem : cid ∈ link.conversations
      · rw [if_pos hmem]
        exact ⟨_, alookup_mapSet_self _ _ _, rfl, rfl, rfl, rfl, rfl, by rw [hwe]; rfl⟩
      · rw [if_neg hmem]
        exact ⟨_, alookup_mapSet_self _ _ _, rfl, rfl, rfl, rfl, rfl, by rw [hwe]; rfl⟩
  · rw [if_neg hwe]
    rw [Bool.not_eq_true] at hwe
    exact ⟨_, alookup_mapSet_self _ _ _, rfl, rfl, rfl, rfl, rfl, by rw [hwe]; rfl⟩

/-- A conversation found after a step either was just created (by that very
operation) or was already present, with the flag only able to rise. -/
theorem stepState_lookup_back (s : Storage) (op : Op) (cid : String) {c' : Conversation}
    (hn : (s.conversations.map Prod.fst).Nodup)
    (h : alookup cid (stepState s op).conversations = some c') :
    (∃ lid now, op = Op.createConversation lid cid now) ∨
      ∃ c0, alookup cid s.conversations = some c0 ∧
        (c0.hasMessages = true → c'.hasMessages = true) := by
  cases op with
  | createLink lid cr now =>
    right
    exact ⟨c', h, fun hf => hf⟩
  | createConversation lid cid' now =>
    simp only [stepState, createConversation] at h
    cases hl : alookup lid s.links with
    | none =>
      rw [hl] at h
      right
      exact ⟨c', h, fun hf => hf⟩
    | some l0 =>
      rw [hl] at h
      dsimp only at h
      by_cases hq : cid' = cid
      · subst hq
        left
        exact ⟨lid, now, rfl⟩
      · rw [alookup_mapSet_ne _ _ hq] at h
        right
        exact ⟨c', h, fun hf => hf⟩
  | sendMessage cid' text isC now mid =>
    right
    by_cases hq : cid' = cid
    · subst hq
      cases hc : alookup cid' s.conversations with
      | none =>
        simp only [stepState, sendMessage] at h
        rw [hc] at h
        dsimp only at h
        rw [hc] at h
        cases h
      | some conv =>
        rcases send_self_lookup s cid' text isC now mid hc with
          ⟨c'', hc'', _, _, _, _, _, hfl⟩
        have hceq : c' = c'' := by
          have h2 := hc''
          rw [show (sendMessage cid' text isC now mid s).1 = stepState s
            (Op.sendMessage cid' text isC now mid) from rfl] at h2
          rw [h] at h2
          exact Option.some.inj h2
        subst hceq
        refine ⟨conv, rfl, ?_⟩
        intro hf
        rw [hfl, hf, Bool.or_true]
    · refine ⟨c', ?_, fun hf => hf⟩
      simp only [stepState, sendMessage] at h
      cases hc : alookup cid' s.conversations with
      | none =>
        rw [hc] at h
        exact h
      | some conv =>
        rw [hc] at h
        dsimp only at h
        by_cases hwe : conv.messages.isEmpty = true
        · rw [if_pos hwe] at h
          cases hl : alookup conv.linkId s.links with
          | none =>
            rw [hl] at h
            dsimp only at h
            rw [alookup_mapSet_ne _ _ hq] at h
            exact h
          | some link =>
            rw [hl] at h
            dsimp only at h
            by_cases hmem : cid' ∈ link.conversations
            · rw [if_pos hmem] at h
              rw [alookup_mapSet_ne _ _ hq] at h
              exact h
            · rw [if_neg hmem] at h
              rw [alookup_mapSet_ne _ _ hq] at h
              exact h
        · rw [if_neg hwe] at h
          rw [alookup_mapSet_ne _ _ hq] at h
          exact h
  | cleanup now =>
    right
    simp only [stepState] at h
    rw [cleanup_conv_lookup now s cid hn] at h
    cases hc0 : alookup cid s.conversations with
    | none =>
      rw [hc0] at h
      cases h
    | some c0 =>
      rw [hc0] at h
      dsimp only at h
      by_cases hd : doomedConv now (cleanupConv now c0) = true
      · rw [if_pos hd] at h
        cases h
      · rw [if_neg hd] at h
        cases h
        refine ⟨c0, rfl, ?_⟩
        intro hf
        rw [cleanupConv_flag]
        exact hf

/-- A conversation whose flag is set after a step either already had it set,
or just received its first message (its messages are non-empty). -/
theorem stepState_lookup_fwd (s : Storage) (op : Op) (cid : String) {c' : Conversation}
    (hn : (s.conversations.map Prod.fst).Nodup)
    (h : alookup cid (stepState s op).conversations = some c')
    (hflag : c'.hasMessages = true) :
    (∃ c0, alookup cid s.conversations = some c0 ∧ c0.hasMessages = true) ∨
      c'.messages ≠ [] := by
  cases op with
  | createLink lid cr now =>
    left
    exact ⟨c', h, hflag⟩
  | createConversation lid cid' now =>
    simp only [stepState, createConversation] at h
    cases hl : alookup lid s.links with
    | none =>
      rw [hl] at h
      left
      exact ⟨c', h, hflag⟩
    | some l0 =>
      rw [hl] at h
      dsimp only at h
      by_cases hq : cid' = cid
      · subst hq
        rw [alookup_mapSet_self] at h
        cases h
        exact Bool.noConfusion hflag
      · rw [alookup_mapSet_ne _ _ hq] at h
        left
        exact ⟨c', h, hflag⟩
  | sendMessage cid' text isC now mid =>
    by_cases hq : cid' = cid
    · subst hq
      cases hc : alookup cid' s.conversations with
      | none =>
        simp only [stepState, sendMessage] at h
        rw [hc] at h
        dsimp only at h
        rw [hc] at h
        cases h
      | some conv =>
        rcases send_self_lookup s cid' text isC now mid hc with
          ⟨c'', hc'', hmsg, _, _, _, _, _⟩
        have hceq : c' = c'' := by
          have h2 := hc''
          rw [show (sendMessage cid' text isC now mid s).1 = stepState s
            (Op.sendMessage cid' text isC now mid) from rfl] at h2
          rw [h] at h2
          exact Option.some.inj h2
        subst hceq
        right
        rw [hmsg]
        simp
    · left
      simp only [stepState, sendMessage] at h
      cases hc : alookup cid' s.conversations with
      | none =>
        rw [hc] at h
        exact ⟨c', h, hflag⟩
      | some conv =>
        rw [hc] at h
        dsimp only at h
        by_cases hwe : conv.messages.isEmpty = true
        · rw [if_pos hwe] at h
          cases hl : alookup conv.linkId s.links with
          | none =>
            rw [hl] at h
            dsimp only at h
            rw [alookup_mapSet_ne _ _ hq] at h
            exact ⟨c', h, hflag⟩
          | some link =>
            rw [hl] at h
            dsimp only at h
            by_cases hmem : cid' ∈ link.conversations
            · rw [if_pos hmem] at h
              rw [alookup_mapSet_ne _ _ hq] at h
              exact ⟨c', h, hflag⟩
            · rw [if_neg hmem] at h
              rw [alookup_mapSet_ne _ _ hq] at h
              exact ⟨c', h, hflag⟩
        · rw [if_neg hwe] at h
          rw [alookup_mapSet_ne _ _ hq] at h
          exact ⟨c', h, hflag⟩
  | cleanup now =>
    left
    simp only [stepState] at h
    rw [cleanup_conv_lookup now s cid hn] at h
    cases hc0 : alookup cid s.conversations with
    | none =>
      rw [hc0] at h
      cases h
    | some c0 =>
      rw [hc0] at h
      dsimp only at h
      by_cases hd : doomedConv now (cleanupConv now c0) = true
      · rw [if_pos hd] at h
        cases h
      · rw [if_neg hd] at h
        cases h
        rw [cleanupConv_flag] at hflag
        exact ⟨c0, rfl, hflag⟩

/-- Once a conversation has its flag set, it keeps it for the rest of any
well-formed trace (ids are never reused, the flag is never cleared). -/
theorem flag_persists (p : List Op) (cid : String)
    (hstart : ∃ c, alookup cid (runState p).conversations = some c ∧ c.hasMessages = true) :
    ∀ q, WFTrace (p ++ q) →
      ∀ c', alookup cid (runState (p ++ q)).conversations = some c' →
        c'.hasMessages = true := by
  intro q
  induction q using List.reverseRecOn with
  | nil =>
    intro _ c' hc'
    rcases hstart with ⟨c, hc, hf⟩
    rw [List.append_nil] at hc'
    rw [hc] at hc'
    cases hc'
    exact hf
  | append_singleton q op ih =>
    intro hwf c' hc'
    have hassoc : p ++ (q ++ [op]) = (p ++ q) ++ [op] := by simp
    have hwf' : WFTrace (p ++ q) := by
      rw [hassoc] at hwf
      exact (wfTrace_of_concat _ _ hwf).1
    rw [hassoc, runState_concat] at hc'
    have hn := (inv_runState _ hwf').convsNodup
    rcases stepState_lookup_back _ op cid hn hc' with ⟨lid, now, rfl⟩ | ⟨c0, hc0, himp⟩
    · exfalso
      rw [hassoc] at hwf
      have hfr := (wfTrace_of_concat _ _ hwf).2
      rcases hstart with ⟨c, hc, _⟩
      have hmem : cid ∈ convIdsOf p := conv_key_created p cid (by rw [hc]; rfl)
      have hmem2 : cid ∈ convIdsOf (p ++ q) := by
        rw [convIdsOf_append]
        exact List.mem_append_left _ hmem
      simp [freshOp] at hfr
      exact hfr hmem2
    · exact himp (ih hwf' c0 hc0)

/-- Flag set implies the message sequence was non-empty at some point. -/
theorem flag_to_ever (ops : List Op) (hwf : WFTrace ops) :
    ∀ cid c', alookup cid (runState ops).conversations = some c' →
      c'.hasMessages = true → EverNonEmpty ops cid := by
  induction ops using List.reverseRecOn with
  | nil =>
    intro cid c' hc' _
    cases hc'
  | append_singleton ops op ih =>
    intro cid c' hc' hflag
    have hwf0 := (wfTrace_of_concat _ _ hwf).1
    rw [runState_concat] at hc'
    have hn := (inv_runState _ hwf0).convsNodup
    rcases stepState_lookup_fwd _ op cid hn hc' hflag with ⟨c0, hc0, hf0⟩ | hne
    · rcases ih hwf0 cid c0 hc0 hf0 with ⟨n, hlen, c1, hcl, hnem⟩
      refine ⟨n, ?_, c1, ?_, hnem⟩
      · calc n ≤ ops.length := hlen
          _ ≤ (ops ++ [op]).length := by simp
      · rw [List.take_append_of_le_length hlen]
        exact hcl
    · refine ⟨(ops ++ [op]).length, Nat.le_refl _, c', ?_, hne⟩
      rw [List.take_length, runState_concat]
      exact hc'

/-- Conversely: if the messages were ever non-empty, a conversation still
present has its flag set. -/
theorem ever_to_flag (ops : List Op) (hwf : WFTrace ops) (cid : String)
    (hever : EverNonEmpty ops cid) :
    ∀ c', alookup cid (runState ops).conversations = some c' → c'.hasMessages = true := by
  rcases hever with ⟨n, hn, c, hc, hnem⟩
  have hwfn := wfTrace_take ops hwf n
  have hinvn := inv_runState _ hwfn
  have hflagn : c.hasMessages = true := hinvn.nonempty_flag cid c hc hnem
  have hsplit : ops.take n ++ ops.drop n = ops := List.take_append_drop n ops
  intro c' hc'
  apply flag_persists (ops.take n) cid ⟨c, hc, hflagn⟩ (ops.drop n)
  · rw [hsplit]
    exact hwf
  · rw [hsplit]
    exact hc'

/-! ### Counting `new-conversation` emissions -/

/-- A step emits a `new-conversation` about `cid` exactly when it is a send
to an existing conversation `cid` whose flag is still false. -/
theorem send_newconv_char (s : Storage) (hinv : Inv s) (cid : String) (op : Op) :
    (0 < countNewConv cid (stepEvents s op)) ↔
      (∃ text isC now mid, op = Op.sendMessage cid text isC now mid ∧
        ∃ c, alookup cid s.conversations = some c ∧ c.hasMessages = false) := by
  cases op with
  | createLink lid cr now =>
    constructor
    · intro h
      simp [stepEvents, countNewConv] at h
    · rintro ⟨text, isC, now', mid, heq, -⟩
      cases heq
  | createConversation lid cid' now =>
    constructor
    · intro h
      simp [stepEvents, countNewConv] at h
    · rintro ⟨text, isC, now', mid, heq, -⟩
      cases heq
  | cleanup now =>
    constructor
    · intro h
      simp [stepEvents, countNewConv] at h
    · rintro ⟨text, isC, now', mid, heq, -⟩
      cases heq
  | sendMessage cid' text isC now mid =>
    show (0 < countNewConv cid (sendMessage cid' text isC now mid s).2) ↔ _
    unfold sendMessage
    cases hc : alookup cid' s.conversations with
    | none =>
      dsimp only
      constructor
      · intro h
        simp [countNewConv] at h
      · rintro ⟨text2, isC2, now2, mid2, heq, c, hcl, -⟩
        injection heq with h1 h2 h3 h4 h5
        subst h1
        rw [hc] at hcl
        cases hcl
    | some conv =>
      dsimp only
      have hid : conv.id = cid' := hinv.conv_id_eq cid' conv hc
      by_cases hwe : conv.messages.isEmpty = true
      · rw [if_pos hwe]
        cases hl : alookup conv.linkId s.links with
        | none =>
          exfalso
          have hs := hinv.conv_link cid' conv hc
          rw [hl] at hs
          cases hs
        | some link =>
          dsimp only
          by_cases hmem : cid' ∈ link.conversations
          · rw [if_pos hmem]
            have hflag : conv.hasMessages = true :=
              (hinv.flag_mem cid' conv link hc hl).mpr hmem
            constructor
            · intro h
              simp [countNewConv, isNewConvFor] at h
            · rintro ⟨text2, isC2, now2, mid2, heq, c, hcl, hcf⟩
              injection heq with h1 h2 h3 h4 h5
              subst h1
              rw [hc] at hcl
              cases hcl
              rw [hflag] at hcf
              cases hcf
          · rw [if_neg hmem]
            have hflag : conv.hasMessages = false := by
              rcases Bool.eq_false_or_eq_true conv.hasMessages with hf | hf
              · exact absurd ((hinv.flag_mem cid' conv link hc hl).mp hf) hmem
              · exact hf
            constructor
            · intro h
              have hcc : conv.id = cid := by
                by_contra hne
                simp [countNewConv, isNewConvFor, hne] at h
              rw [hid] at hcc
              subst hcc
              exact ⟨text, isC, now, mid, rfl, conv, hc, hflag⟩
            · rintro ⟨text2, isC2, now2, mid2, heq, c, hcl, hcf⟩
              injection heq with h1 h2 h3 h4 h5
              subst h1
              simp [countNewConv, isNewConvFor, hid]
      · rw [if_neg hwe]
        rw [Bool.not_eq_true] at hwe
        have hnem : conv.messages ≠ [] := by
          intro hh
          rw [hh] at hwe
          cases hwe
        have hflag : conv.hasMessages = true := hinv.nonempty_flag cid' conv hc hnem
        constructor
        · intro h
          simp [countNewConv, isNewConvFor] at h
        · rintro ⟨text2, isC2, now2, mid2, heq, c, hcl, hcf⟩
          injection heq with h1 h2 h3 h4 h5
          subst h1
          rw [hc] at hcl
          cases hcl
          rw [hflag] at hcf
          cases hcf

theorem step_newconv_le_one (s : Storage) (op : Op) (cid : String) :
    countNewConv cid (stepEvents s op) ≤ 1 := by
  cases op with
  | createLink lid cr now => simp [stepEvents, countNewConv]
  | createConversation lid cid' now => simp [stepEvents, countNewConv]
  | cleanup now => simp [stepEvents, countNewConv]
  | sendMessage cid' text isC now mid =>
    show countNewConv cid (sendMessage cid' text isC now mid s).2 ≤ 1
    unfold sendMessage
    cases hc : alookup cid' s.conversations with
    | none => simp [countNewConv]
    | some conv =>
      dsimp only
      by_cases hwe : conv.messages.isEmpty = true
      · rw [if_pos hwe]
        cases hl : alookup conv.linkId s.links with
        | none => simp [countNewConv, isNewConvFor]
        | some link =>
          dsimp only
          by_cases hmem : cid' ∈ link.conversations
          · rw [if_pos hmem]
            simp [countNewConv, isNewConvFor]
          · rw [if_neg hmem]
            by_cases hcc : conv.id = cid
            · simp [countNewConv, isNewConvFor, hcc]
            · simp [countNewConv, isNewConvFor, hcc]
      · rw [if_neg hwe]
        simp [countNewConv, isNewConvFor]

/-- Every successful send produces a `conversation-updated` about its
conversation. -/
theorem send_convupdated (s : Storage) (hinv : Inv s) (cid text : String) (isC : Bool)
    (now : Nat) (mid : String) {conv : Conversation}
    (hc : alookup cid s.conversations = some conv) :
    0 < countConvUpdated cid (sendMessage cid text isC now mid s).2 := by
  have hid : conv.id = cid := hinv.conv_id_eq cid conv hc
  unfold sendMessage
  rw [hc]
  dsimp only
  by_cases hwe : conv.messages.isEmpty = true
  · rw [if_pos hwe]
    cases hl : alookup conv.linkId s.links with
    | none => simp [countConvUpdated, isConvUpdatedFor, hid]
    | some link =>
      dsimp only
      by_cases hmem : cid ∈ link.conversations
      · rw [if_pos hmem]
        simp [countConvUpdated, isConvUpdatedFor, hid]
      · rw [if_neg hmem]
        simp [countConvUpdated, isConvUpdatedFor, hid]
  · rw [if_neg hwe]
    simp [countConvUpdated, isConvUpdatedFor, hid]

/-- Along any well-formed trace, `new-conversation` fires at most once per
conversation id; and once it has fired, the conversation's flag is set (while
it exists) and its id has been consumed. -/
theorem newconv_at_most_once (ops : List Op) (hwf : WFTrace ops) (cid : String) :
    countNewConv cid (runEvents ops) ≤ 1 ∧
      (1 ≤ countNewConv cid (runEvents ops) →
        (∀ c, alookup cid (runState ops).conversations = some c → c.hasMessages = true) ∧
        cid ∈ convIdsOf ops) := by
  induction ops using List.reverseRecOn with
  | nil =>
    constructor
    · show countNewConv cid [] ≤ 1
      simp [countNewConv]
    · intro h1
      exfalso
      simp [runEvents, execEvents, countNewConv] at h1
  | append_singleton ops op ih =>
    rcases wfTrace_of_concat ops op hwf with ⟨hwf0, hfr⟩
    rcases ih hwf0 with ⟨hle, haux⟩
    have hinv0 := inv_runState ops hwf0
    rw [runEvents_concat, runState_concat, countNewConv, List.countP_append]
    rw [show (List.countP (isNewConvFor cid) (runEvents ops)) =
      countNewConv cid (runEvents ops) from rfl]
    rw [show (List.countP (isNewConvFor cid) (stepEvents (runState ops) op)) =
      countNewConv cid (stepEvents (runState ops) op) from rfl]
    by_cases hstep : 0 < countNewConv cid (stepEvents (runState ops) op)
    · rcases (send_newconv_char _ hinv0 cid op).mp hstep with
        ⟨text, isC, now, mid, rfl, c, hc, hflag⟩
      have hstep1 : countNewConv cid
          (stepEvents (runState ops) (Op.sendMessage cid text isC now mid)) = 1 :=
        Nat.le_antisymm (step_newconv_le_one _ _ _) hstep
      have hprior : countNewConv cid (runEvents ops) = 0 := by
        by_contra hpc
        have h1 : 1 ≤ countNewConv cid (runEvents ops) :=
          Nat.one_le_iff_ne_zero.mpr hpc
        have hft := (haux h1).1 c hc
        rw [hflag] at hft
        cases hft
      have hm : c.messages = [] := by
        by_contra hmc
        have := hinv0.nonempty_flag cid c hc hmc
        rw [hflag] at this
        cases this
      rw [hprior, hstep1]
      refine ⟨by simp, ?_⟩
      intro _
      constructor
      · intro c' hc'
        rcases send_self_lookup (runState ops) cid text isC now mid hc with
          ⟨c'', hc'', _, _, _, _, _, hfl⟩
        have hceq : c' = c'' := by
          have h2 := hc''
          rw [show (sendMessage cid text isC now mid (runState ops)).1 =
            stepState (runState ops) (Op.sendMessage cid text isC now mid) from rfl] at h2
          rw [hc'] at h2
          exact Option.some.inj h2
        subst hceq
        rw [hfl, hm]
        rfl
      · rw [convIdsOf_append]
        exact List.mem_append_left _ (conv_key_created ops cid (by rw [hc]; rfl))
    · have hstep0 : countNewConv cid (stepEvents (runState ops) op) = 0 :=
        Nat.eq_zero_of_not_pos hstep
      rw [hstep0, Nat.add_zero]
      refine ⟨hle, ?_⟩
      intro h1
      rcases haux h1 with ⟨hflags, hmem⟩
      constructor
      · intro c' hc'
        rcases stepState_lookup_back _ op cid hinv0.convsNodup hc' with
          ⟨lid, now, rfl⟩ | ⟨c0, hc0, himp⟩
        · exfalso
          simp [freshOp] at hfr
          exact hfr hmem
        · exact himp (hflags c0 hc0)
      · rw [convIdsOf_append]
        exact List.mem_append_left _ hmem

/-! ### Sweep idempotence and read-time filtering -/

theorem cleanupConv_fixed (now : Nat) (c : Conversation)
    (hf : c.messages.filter (msgKept now) = c.messages)
    (hl : ∀ m, c.messages.getLast? = some m → c.lastMessage = m.timestamp) :
    cleanupConv now c = c := by
  unfold cleanupConv
  dsimp only
  rw [hf]
  cases hg : c.messages.getLast? with
  | none => rfl
  | some m =>
    dsimp only
    rw [← hl m hg]

theorem cleanupConv_last (now : Nat) (c : Conversation) {m : Message}
    (hg : (cleanupConv now c).messages.getLast? = some m) :
    (cleanupConv now c).lastMessage = m.timestamp := by
  have hmsgs := cleanupConv_messages now c
  rw [hmsgs] at hg
  unfold cleanupConv
  dsimp only
  rw [hg]

theorem cleanupConv_idem (now : Nat) (c : Conversation) :
    cleanupConv now (cleanupConv now c) = cleanupConv now c := by
  apply cleanupConv_fixed
  · rw [cleanupConv_messages now c]
    exact List.filter_eq_self.mpr (fun a ha => (List.mem_filter.mp ha).2)
  · intro m hg
    exact cleanupConv_last now c hg

theorem map_clean_twice (now : Nat) (l : List (String × Conversation)) :
    (l.map (fun p => (p.1, cleanupConv now p.2))).map (fun p => (p.1, cleanupConv now p.2)) =
      l.map (fun p => (p.1, cleanupConv now p.2)) := by
  rw [List.map_map]
  apply List.map_congr_left
  intro p _
  show (p.1, cleanupConv now (cleanupConv now p.2)) = (p.1, cleanupConv now p.2)
  rw [cleanupConv_idem]

theorem cleanedConvs_cleanup (now : Nat) (s : Storage) :
    cleanedConvs now (cleanupOldMessages now s) = (cleanupOldMessages now s).conversations := by
  show (cleanupOldMessages now s).conversations.map (fun p => (p.1, cleanupConv now p.2)) = _
  rw [cleanupOldMessages_eq]
  dsimp only
  unfold cleanedConvs
  rw [List.filter_map]
  exact map_clean_twice now
    (s.conversations.filter ((fun p => !doomedConv now p.2) ∘ fun p => (p.1, cleanupConv now p.2)))

theorem deadOf_cleanup (now : Nat) (s : Storage) :
    deadOf now (cleanupOldMessages now s) = [] := by
  unfold deadOf
  rw [cleanedConvs_cleanup]
  rw [cleanupOldMessages_eq]
  dsimp only
  rw [List.filter_filter]
  apply List.filter_eq_nil_iff.mpr
  intro p _
  simp

/-- C8 core (in-memory variant): the sweep is idempotent at a fixed clock. -/
theorem cleanupOldMessages_idem (now : Nat) (s : Storage) :
    cleanupOldMessages now (cleanupOldMessages now s) = cleanupOldMessages now s := by
  have hA := cleanedConvs_cleanup now s
  have hB := deadOf_cleanup now s
  show { links := (deadOf now (cleanupOldMessages now s)).foldl
            (fun ls p => removeFromLink ls p.2.linkId p.1) (cleanupOldMessages now s).links,
         conversations := (cleanedConvs now (cleanupOldMessages now s)).filter
            (fun p => !(doomedConv now p.2)) } = cleanupOldMessages now s
  rw [hB, List.foldl_nil, hA]
  have hC : (cleanupOldMessages now s).conversations.filter (fun p => !(doomedConv now p.2)) =
      (cleanupOldMessages now s).conversations := by
    apply List.filter_eq_self.mpr
    intro p hp
    rw [cleanupOldMessages_eq] at hp
    exact (List.mem_filter.mp hp).2
  rw [hC]

/-- What the in-memory sweep deletes: exactly the conversations left with no
unexpired message and older than one hour -- the `hasMessages` flag plays no
role. -/
theorem inmem_sweep_deletion_char (now : Nat) (s : Storage)
    (hn : (s.conversations.map Prod.fst).Nodup) (cid : String) {conv : Conversation}
    (hc : alookup cid s.conversations = some conv) :
    alookup cid (cleanupOldMessages now s).conversations = none ↔
      (conv.messages.filter (msgKept now) = [] ∧ now - conv.createdAt > 3600000) := by
  rw [cleanup_conv_lookup now s cid hn, hc]
  dsimp only
  by_cases hd : doomedConv now (cleanupConv now conv) = true
  · rw [if_pos hd]
    unfold doomedConv at hd
    rw [Bool.and_eq_true, List.isEmpty_iff, decide_eq_true_eq] at hd
    rw [cleanupConv_messages, cleanupConv_createdAt] at hd
    simp only [true_iff]
    exact hd
  · rw [if_neg hd]
    unfold doomedConv at hd
    rw [Bool.and_eq_true, List.isEmpty_iff, decide_eq_true_eq] at hd
    rw [cleanupConv_messages, cleanupConv_createdAt] at hd
    constructor
    · intro hcontra
      cases hcontra
    · intro hcontra
      exact absurd hcontra hd

/-- The in-memory `GET /api/conversations/:convId` filters expired messages
at read time. -/
theorem inmem_get_filters (convId : String) (now : Nat) (s : Storage) {conv : Conversation}
    (hc : alookup convId s.conversations = some conv) :
    ∃ c', (getConversation convId now s).2 = some c' ∧
      c'.messages = conv.messages.filter (fun m => decide (now - m.timestamp ≤ AUTO_DELETE_TIME)) ∧
      ∀ m ∈ c'.messages, now - m.timestamp ≤ AUTO_DELETE_TIME := by
  unfold getConversation
  rw [hc]
  dsimp only
  refine ⟨_, rfl, rfl, ?_⟩
  intro m hm
  have h2 := (List.mem_filter.mp hm).2
  simpa using h2

end InMem

namespace Mongo

/-! ### Lemmas about the MongoDB variant -/

theorem alookup_deleteConv_self (cid : String) (convs : List (String × MConv)) :
    alookup cid (deleteConv cid convs) = none := by
  rw [alookup_eq_none_iff]
  intro hmem
  rcases List.mem_map.mp hmem with ⟨p, hp, hfst⟩
  have h2 := (List.mem_filter.mp hp).2
  rw [decide_eq_true_eq] at h2
  exact h2 hfst

/-- `send-message` with an unknown conversation: explicit error, store
untouched. -/
theorem mongo_send_missing (st : MStorage) (convId text : String) (isC : Bool)
    (now msgId : Nat) (h : alookup convId st.convs = none) :
    mongoSend convId text isC now msgId st =
      (st, [{ target := InMem.Target.toSender,
              event := MEvent.errorMsg "Conversation not found" }]) := by
  unfold mongoSend
  rw [h]

/-- Step characterization of the MongoDB `send-message`: `new-conversation`
fires exactly on the first message, `conversation-updated` on every send, and
no error event on the success path. -/
theorem mongo_send_step (st : MStorage) (convId text : String) (isC : Bool) (now msgId : Nat)
    {conv : MConv} {l : MLink} (hid : conv.convId = convId)
    (hc : alookup convId st.convs = some conv)
    (hl : alookup conv.linkId st.links = some l) :
    ((0 < countMNewConv convId (mongoSend convId text isC now msgId st).2) ↔
      conv.messages = []) ∧
    0 < countMConvUpdated convId (mongoSend convId text isC now msgId st).2 ∧
    (mongoSend convId text isC now msgId st).2.all (fun e => !(isMErrorEvent e)) = true := by
  unfold mongoSend
  rw [hc]
  dsimp only
  rw [hl]
  dsimp only
  by_cases hm : conv.messages = []
  · rw [hm]
    refine ⟨⟨fun _ => rfl, fun _ => ?_⟩, ?_, ?_⟩
    · simp [countMNewConv, isMNewConvFor, hid]
    · simp [countMConvUpdated, isMConvUpdatedFor, hid]
    · simp [isMErrorEvent]
  · have hlen : ¬((conv.messages ++
        ([{ id := msgId, text := text, isCreator := isC, timestamp := now }] :
          List MMessage)).length = 1) := by
      rw [List.length_append]
      simp only [List.length_cons, List.length_nil]
      intro h0
      have h1 : conv.messages.length = 0 := by omega
      exact hm (List.length_eq_zero.mp h1)
    rw [if_neg hlen]
    refine ⟨⟨fun hcount => ?_, fun h0 => absurd h0 hm⟩, ?_, ?_⟩
    · exfalso
      simp [countMNewConv, isMNewConvFor] at hcount
    · simp [countMConvUpdated, isMConvUpdatedFor, hid]
    · simp [isMErrorEvent]

/-- The MongoDB sweep keeps every promoted conversation whose link exists. -/
theorem mongo_sweep_retains_promoted (now : Nat) (st : MStorage) {cid : String} {conv : MConv}
    (hc : alookup cid st.convs = some conv) (hflag : conv.hasMessages = true)
    (hlink : (alookup conv.linkId st.links).isSome = true) :
    alookup cid (cleanupOrphanedConversations now st).convs = some conv := by
  show alookup cid ((st.convs.filter
      (fun p => (alookup p.2.linkId st.links).isSome)).filter
      (fun p => !(!p.2.hasMessages && decide (p.2.createdAt < now - 3600000)))) = some conv
  have h1 : alookup cid (st.convs.filter
      (fun p => (alookup p.2.linkId st.links).isSome)) = some conv :=
    alookup_filter_pos hc (by simpa using hlink)
  exact alookup_filter_pos h1 (by simp [hflag])

/-- The MongoDB variant returns the stored conversation verbatim when its
link exists: no message filtering happens on read. -/
theorem mongo_get_unfiltered (convId : String) (st : MStorage) {conv : MConv}
    (hc : alookup convId st.convs = some conv)
    (hl : (alookup conv.linkId st.links).isSome = true) :
    mongoGetConversation convId st = (st, MResult.ok conv) := by
  unfold mongoGetConversation
  rw [hc]
  dsimp only
  cases hls : alookup conv.linkId st.links with
  | none =>
    rw [hls] at hl
    cases hl
  | some l0 => rfl

theorem cleanupOrphaned_eq (now : Nat) (st : MStorage) :
    cleanupOrphanedConversations now st =
      { st with
        convs :=
          List.filter (fun p => !(!p.2.hasMessages && decide (p.2.createdAt < now - 3600000)))
            (List.filter (fun p => (alookup p.2.linkId st.links).isSome) st.convs) } := rfl

/-- C8 core (MongoDB variant): the orphan/empty sweep is idempotent at a
fixed clock. -/
theorem cleanupOrphaned_idem (now : Nat) (st : MStorage) :
    cleanupOrphanedConversations now (cleanupOrphanedConversations now st) =
      cleanupOrphanedConversations now st := by
  rw [cleanupOrphaned_eq now (cleanupOrphanedConversations now st)]
  have hA : (cleanupOrphanedConversations now st).convs.filter
      (fun p => (alookup p.2.linkId (cleanupOrphanedConversations now st).links).isSome) =
      (cleanupOrphanedConversations now st).convs := by
    apply List.filter_eq_self.mpr
    intro p hp
    rw [cleanupOrphaned_eq] at hp
    have hp1 : p ∈ st.convs.filter (fun q => (alookup q.2.linkId st.links).isSome) :=
      List.mem_of_mem_filter hp
    exact (List.mem_filter.mp hp1).2
  rw [hA]
  have hB : (cleanupOrphanedConversations now st).convs.filter
      (fun p => !(!p.2.hasMessages && decide (p.2.createdAt < now - 3600000))) =
      (cleanupOrphanedConversations now st).convs := by
    apply List.filter_eq_self.mpr
    intro p hp
    rw [cleanupOrphaned_eq] at hp
    exact (List.mem_filter.mp hp).2
  rw [hB]

/-- `GET /api/conversations/:convId` with a live conversation whose link is
gone: the conversation is deleted and the expired-link error returned. -/
theorem mongo_get_expired (st : MStorage) (convId : String) {conv : MConv}
    (hc : alookup convId st.convs = some conv)
    (hl : alookup conv.linkId st.links = none) :
    mongoGetConversation convId st =
      ({ st with convs := deleteConv convId st.convs },
       MResult.notFound "Chat link has expired") := by
  unfold mongoGetConversation
  rw [hc]
  dsimp only
  rw [hl]

theorem mongo_join_expired (st : MStorage) (convId : String) {conv : MConv}
    (hc : alookup convId st.convs = some conv)
    (hl : alookup conv.linkId st.links = none) :
    mongoJoinConversation convId st =
      ({ st with convs := deleteConv convId st.convs },
       [{ target := InMem.Target.toSender,
          event := MEvent.errorMsg "Chat link has expired" }]) := by
  unfold mongoJoinConversation
  rw [hc]
  dsimp only
  rw [hl]

theorem mongo_send_expired (st : MStorage) (convId text : String) (isC : Bool)
    (now msgId : Nat) {conv : MConv}
    (hc : alookup convId st.convs = some conv)
    (hl : alookup conv.linkId st.links = none) :
    mongoSend convId text isC now msgId st =
      ({ st with convs := deleteConv convId st.convs },
       [{ target := InMem.Target.toSender,
          event := MEvent.errorMsg "Chat link has expired" }]) := by
  unfold mongoSend
  rw [hc]
  dsimp only
  rw [hl]

/-- Targets of the `new-message` emission of a successful MongoDB send: the
conversation room, excluding the sender. -/
theorem mongo_send_newmsg_targets (st : MStorage) (convId text : String) (isC : Bool)
    (now msgId : Nat) {conv : MConv} {l : MLink}
    (hc : alookup convId st.convs = some conv)
    (hl : alookup conv.linkId st.links = some l) :
    mNewMsgTargets (mongoSend convId text isC now msgId st).2 =
      [InMem.Target.broadcastRoom convId] := by
  unfold mongoSend
  rw [hc]
  dsimp only
  rw [hl]
  dsimp only
  by_cases hlen : (conv.messages ++
      ([{ id := msgId, text := text, isCreator := isC, timestamp := now }] :
        List MMessage)).length = 1
  · rw [if_pos hlen]
    simp [mNewMsgTargets]
  · rw [if_neg hlen]
    simp [mNewMsgTargets]

end Mongo

namespace InMem

/-- The in-memory send never emits an error event (there is no validation). -/
theorem send_no_error (s : Storage) (convId text : String) (isC : Bool) (now : Nat)
    (mid : String) :
    (sendMessage convId text isC now mid s).2.all (fun e => !(isErrorEvent e)) = true := by
  unfold sendMessage
  cases hc : alookup convId s.conversations with
  | none => rfl
  | some conv =>
    dsimp only
    by_cases hwe : conv.messages.isEmpty = true
    · rw [if_pos hwe]
      cases hl : alookup conv.linkId s.links with
      | none => simp [isErrorEvent]
      | some link =>
        dsimp only
        by_cases hmem : convId ∈ link.conversations
        · rw [if_pos hmem]
          simp [isErrorEvent]
        · rw [if_neg hmem]
          simp [isErrorEvent]
    · rw [if_neg hwe]
      simp [isErrorEvent]

/-- The `new-message` payload of a successful in-memory send is exactly the
trimmed message. -/
theorem send_newmsg_payloads (s : Storage) (convId text : String) (isC : Bool) (now : Nat)
    (mid : String) {conv : Conversation} (hc : alookup convId s.conversations = some conv) :
    newMsgPayloads (sendMessage convId text isC now mid s).2 =
      [{ text := jsTrim text, isCreator := isC, timestamp := now, id := mid }] := by
  unfold sendMessage
  rw [hc]
  dsimp only
  by_cases hwe : conv.messages.isEmpty = true
  · rw [if_pos hwe]
    cases hl : alookup conv.linkId s.links with
    | none => simp [newMsgPayloads]
    | some link =>
      dsimp only
      by_cases hmem : convId ∈ link.conversations
      · rw [if_pos hmem]
        simp [newMsgPayloads]
      · rw [if_neg hmem]
        simp [newMsgPayloads]
  · rw [if_neg hwe]
    simp [newMsgPayloads]

/-- The `new-message` emission of a successful in-memory send goes to the
whole conversation room (`io.to`, sender included). -/
theorem send_newmsg_targets (s : Storage) (convId text : String) (isC : Bool) (now : Nat)
    (mid : String) {conv : Conversation} (hc : alookup convId s.conversations = some conv) :
    newMsgTargets (sendMessage convId text isC now mid s).2 = [Target.toRoom convId] := by
  unfold sendMessage
  rw [hc]
  dsimp only
  by_cases hwe : conv.messages.isEmpty = true
  · rw [if_pos hwe]
    cases hl : alookup conv.linkId s.links with
    | none => simp [newMsgTargets]
    | some link =>
      dsimp only
      by_cases hmem : convId ∈ link.conversations
      · rw [if_pos hmem]
        simp [newMsgTargets]
      · rw [if_neg hmem]
        simp [newMsgTargets]
  · rw [if_neg hwe]
    simp [newMsgTargets]

end InMem

/-! ### Claim theorems -/

/-- C1: in every state of the in-memory store reachable by a well-formed
trace (fresh generated ids), every conversation's link exists, and the
conversation's `hasMessages` flag is true iff its id is a member of its
link's `conversations` list, iff its message sequence has ever been
non-empty; all four mutating operations (create-link, create-conversation,
send-message, the GC sweep) preserve this three-way equivalence. -/
theorem c1_visible_invariant (ops : List InMem.Op) (hwf : InMem.WFTrace ops) :
    (∀ cid c, alookup cid (InMem.runState ops).conversations = some c →
      (alookup c.linkId (InMem.runState ops).links).isSome = true) ∧
    (∀ cid c l, alookup cid (InMem.runState ops).conversations = some c →
      alookup c.linkId (InMem.runState ops).links = some l →
      ((c.hasMessages = true ↔ cid ∈ l.conversations) ∧
       (c.hasMessages = true ↔ InMem.EverNonEmpty ops cid))) := by
  have hinv := InMem.inv_runState ops hwf
  constructor
  · intro cid c hc
    exact hinv.conv_link cid c hc
  · intro cid c l hc hl
    refine ⟨hinv.flag_mem cid c l hc hl, ?_, ?_⟩
    · intro hf
      exact InMem.flag_to_ever ops hwf cid c hc hf
    · intro he
      exact InMem.ever_to_flag ops hwf cid he c hc

/-- C1 witness: the demo trace promotes conversation `C` onto link `L`. -/
theorem c1_visible_invariant_witness :
    (InMem.demoConvAfter.hasMessages = true ↔ "C" ∈ InMem.demoLinkAfter.conversations) ∧
    (InMem.demoConvAfter.hasMessages = true ↔ InMem.EverNonEmpty InMem.demoOps "C") :=
  (c1_visible_invariant InMem.demoOps
      (by decide : InMem.wfFrom [] InMem.demoOps = true)).2 "C" InMem.demoConvAfter
    InMem.demoLinkAfter (by decide) (by decide)

/-- C2: per conversation, `new-conversation` is emitted at most once along
any well-formed in-memory trace; a step emits it exactly when it is a send to
an existing conversation whose flag is still false (the
never-had-a-message state); a send to an already-promoted conversation emits
`conversation-updated` but no `new-conversation`.  In the MongoDB variant a
successful send emits `new-conversation` exactly when it appends the first
message and always emits `conversation-updated`. -/
theorem c2_promotion_once (ops : List InMem.Op) (hwf : InMem.WFTrace ops) (cid : String) :
    InMem.countNewConv cid (InMem.runEvents ops) ≤ 1 ∧
    (∀ p op q, ops = p ++ op :: q →
      ((0 < InMem.countNewConv cid (InMem.stepEvents (InMem.runState p) op)) ↔
        ∃ text isC now mid, op = InMem.Op.sendMessage cid text isC now mid ∧
          ∃ c, alookup cid (InMem.runState p).conversations = some c ∧
            c.hasMessages = false)) ∧
    (∀ p q text isC now mid c,
      ops = p ++ InMem.Op.sendMessage cid text isC now mid :: q →
      alookup cid (InMem.runState p).conversations = some c → c.hasMessages = true →
      InMem.countNewConv cid
        (InMem.stepEvents (InMem.runState p) (InMem.Op.sendMessage cid text isC now mid)) = 0 ∧
      0 < InMem.countConvUpdated cid
        (InMem.stepEvents (InMem.runState p) (InMem.Op.sendMessage cid text isC now mid))) ∧
    (∀ st convId text isC now msgId conv l, conv.convId = convId →
      alookup convId st.convs = some conv →
      alookup conv.linkId st.links = some l →
      ((0 < Mongo.countMNewConv convId (Mongo.mongoSend convId text isC now msgId st).2) ↔
        conv.messages = []) ∧
      0 < Mongo.countMConvUpdated convId (Mongo.mongoSend convId text isC now msgId st).2) := by
  refine ⟨(InMem.newconv_at_most_once ops hwf cid).1, ?_, ?_, ?_⟩
  · intro p op q heq
    have hwfp := (InMem.wfTrace_split p op q (heq ▸ hwf)).1
    exact InMem.send_newconv_char (InMem.runState p) (InMem.inv_runState p hwfp) cid op
  · intro p q text isC now mid c heq hcl hflag
    have hwfp := (InMem.wfTrace_split p (InMem.Op.sendMessage cid text isC now mid) q
      (heq ▸ hwf)).1
    have hinvp := InMem.inv_runState p hwfp
    constructor
    · by_contra h0
      have hpos : 0 < InMem.countNewConv cid (InMem.stepEvents (InMem.runState p)
          (InMem.Op.sendMessage cid text isC now mid)) := Nat.pos_of_ne_zero h0
      rcases (InMem.send_newconv_char (InMem.runState p) hinvp cid _).mp hpos with
        ⟨t2, b2, n2, m2, _, c2, hc2, hf2⟩
      rw [hcl] at hc2
      cases hc2
      rw [hflag] at hf2
      cases hf2
    · exact InMem.send_convupdated (InMem.runState p) hinvp cid text isC now mid hcl
  · intro st convId text isC now msgId conv l hid hc hl
    have h := Mongo.mongo_send_step st convId text isC now msgId hid hc hl
    exact ⟨h.1, h.2.1⟩

/-- C2 witness: on the demo trace with two sends to the same conversation,
`new-conversation` about `C` is emitted at most once. -/
theorem c2_promotion_once_witness :
    InMem.countNewConv "C" (InMem.runEvents InMem.demoOps2) ≤ 1 :=
  (c2_promotion_once InMem.demoOps2
    (by decide : InMem.wfFrom [] InMem.demoOps2 = true) "C").1

/-- C3 counterexample: the MongoDB `send-message` targets the conversation
room with `socket.broadcast.to`, which excludes the sender, so a sender in
the room does not receive the `new-message` event. -/
theorem c3_sender_excluded_counterexample :
    Mongo.mNewMsgTargets (Mongo.mongoSend "C" "hi" false 5 7 Mongo.demoMStoreFresh).2 =
      [InMem.Target.broadcastRoom "C"] ∧
    InMem.recipients ["alice", "bob"] "alice" (InMem.Target.broadcastRoom "C") = ["bob"] ∧
    ¬ ("alice" ∈ InMem.recipients ["alice", "bob"] "alice"
        (InMem.Target.broadcastRoom "C")) := by
  exact ⟨by decide, by decide, by decide⟩

/-- C3 amended: the in-memory variant broadcasts `new-message` to the whole
conversation room (`io.to`), so every member including the sender receives
it; the MongoDB variant uses `socket.broadcast.to`, which always excludes
the sending session. -/
theorem c3_newmessage_delivery :
    (∀ s convId text isC now mid conv, alookup convId s.conversations = some conv →
      InMem.newMsgTargets (InMem.sendMessage convId text isC now mid s).2 =
        [InMem.Target.toRoom convId] ∧
      ∀ members sender, sender ∈ members →
        sender ∈ InMem.recipients members sender (InMem.Target.toRoom convId)) ∧
    (∀ st convId text isC now msgId conv l, alookup convId st.convs = some conv →
      alookup conv.linkId st.links = some l →
      Mongo.mNewMsgTargets (Mongo.mongoSend convId text isC now msgId st).2 =
        [InMem.Target.broadcastRoom convId] ∧
      ∀ members sender,
        ¬ (sender ∈ InMem.recipients members sender
            (InMem.Target.broadcastRoom convId))) := by
  constructor
  · intro s convId text isC now mid conv hc
    refine ⟨InMem.send_newmsg_targets s convId text isC now mid hc, ?_⟩
    intro members sender h
    exact h
  · intro st convId text isC now msgId conv l hc hl
    refine ⟨Mongo.mongo_send_newmsg_targets st convId text isC now msgId hc hl, ?_⟩
    intro members sender hmem
    have h2 := (List.mem_filter.mp hmem).2
    rw [decide_eq_true_eq] at h2
    exact h2 rfl

/-- C3 witness: concrete sends in both variants. -/
theorem c3_newmessage_delivery_witness :
    InMem.newMsgTargets (InMem.sendMessage "C" "hi" false 5 "m1" InMem.demoStoreFresh).2 =
      [InMem.Target.toRoom "C"] ∧
    "alice" ∈ InMem.recipients ["alice", "bob"] "alice" (InMem.Target.toRoom "C") ∧
    Mongo.mNewMsgTargets (Mongo.mongoSend "C" "hi" false 5 7 Mongo.demoMStoreFresh).2 =
      [InMem.Target.broadcastRoom "C"] := by
  have h1 := c3_newmessage_delivery.1 InMem.demoStoreFresh "C" "hi" false 5 "m1"
    { id := "C", linkId := "L", messages := [], createdAt := 1, lastMessage := 1,
      hasMessages := false } (by decide)
  have h2 := c3_newmessage_delivery.2 Mongo.demoMStoreFresh "C" "hi" false 5 7
    Mongo.demoMConvFresh Mongo.demoMLink (by decide) (by decide)
  exact ⟨h1.1, h1.2 ["alice", "bob"] "alice" (by decide), h2.1⟩

/-- C4 counterexample: in the in-memory variant a send to an unknown
conversation id returns silently -- no event at all is emitted to the
originating session, so no explicit error event is received. -/
theorem c4_silent_drop_counterexample :
    InMem.sendMessage "nope" "hi" false 5 "m9" InMem.demoStoreFresh =
      (InMem.demoStoreFresh, []) := rfl

/-- C4 amended: in both variants a send to a missing conversation appends
nothing and leaves the store unchanged; the MongoDB variant emits an explicit
`error` event to the sender, while the in-memory variant drops the send
silently (no event of any kind). -/
theorem c4_missing_conversation_behavior :
    (∀ s convId text isC now mid, alookup convId s.conversations = none →
      InMem.sendMessage convId text isC now mid s = (s, [])) ∧
    (∀ st convId text isC now msgId, alookup convId st.convs = none →
      Mongo.mongoSend convId text isC now msgId st =
        (st, [{ target := InMem.Target.toSender,
                event := Mongo.MEvent.errorMsg "Conversation not found" }])) := by
  constructor
  · intro s convId text isC now mid h
    unfold InMem.sendMessage
    rw [h]
  · intro st convId text isC now msgId h
    exact Mongo.mongo_send_missing st convId text isC now msgId h

/-- C4 witness: concrete sends to a missing conversation in both variants. -/
theorem c4_missing_conversation_behavior_witness :
    InMem.sendMessage "ghost" "hi" false 5 "m9" InMem.demoStoreFresh =
      (InMem.demoStoreFresh, []) ∧
    Mongo.mongoSend "ghost" "hi" false 5 7 Mongo.demoMStoreFresh =
      (Mongo.demoMStoreFresh,
       [{ target := InMem.Target.toSender,
          event := Mongo.MEvent.errorMsg "Conversation not found" }]) :=
  ⟨c4_missing_conversation_behavior.1 InMem.demoStoreFresh "ghost" "hi" false 5 "m9" (by decide),
   c4_missing_conversation_behavior.2 Mongo.demoMStoreFresh "ghost" "hi" false 5 7 (by decide)⟩

/-- C5 counterexample: the in-memory sweep deletes a promoted conversation
(`hasMessages = true`) as soon as its messages have all expired and it is
older than one hour -- contradicting the claim that a promoted empty
conversation is never deleted by this step. -/
theorem c5_promoted_deleted_counterexample :
    InMem.demoConvOld.hasMessages = true ∧
    alookup "C" InMem.demoStoreOld.conversations = some InMem.demoConvOld ∧
    alookup "C" (InMem.cleanupOldMessages 86400001 InMem.demoStoreOld).conversations =
      none := by
  exact ⟨rfl, rfl, by decide⟩

/-- C5 amended: the in-memory sweep deletes a conversation exactly when its
filtered message list is empty and it is older than the one-hour grace --
regardless of the `hasMessages` flag; the MongoDB sweep's empty-conversation
step deletes only `hasMessages = false` documents, so a promoted conversation
whose link still exists always survives the sweep. -/
theorem c5_sweep_scope :
    (∀ now s, (s.conversations.map Prod.fst).Nodup →
      ∀ cid conv, alookup cid s.conversations = some conv →
        (alookup cid (InMem.cleanupOldMessages now s).conversations = none ↔
          (conv.messages.filter (InMem.msgKept now) = [] ∧
            now - conv.createdAt > 3600000))) ∧
    (∀ now st cid conv, alookup cid st.convs = some conv → conv.hasMessages = true →
      (alookup conv.linkId st.links).isSome = true →
      alookup cid (Mongo.cleanupOrphanedConversations now st).convs = some conv) := by
  constructor
  · intro now s hn cid conv hc
    exact InMem.inmem_sweep_deletion_char now s hn cid hc
  · intro now st cid conv hc hflag hlink
    exact Mongo.mongo_sweep_retains_promoted now st hc hflag hlink

/-- C5 witness: the deletion test on the demo store, and retention of a
promoted conversation in the MongoDB variant. -/
theorem c5_sweep_scope_witness :
    (alookup "C" (InMem.cleanupOldMessages 86400001 InMem.demoStoreOld).conversations =
        none ↔
      (InMem.demoConvOld.messages.filter (InMem.msgKept 86400001) = [] ∧
        86400001 - InMem.demoConvOld.createdAt > 3600000)) ∧
    alookup "C" (Mongo.cleanupOrphanedConversations 5 Mongo.demoMStoreOld).convs =
      some Mongo.demoMConvOld :=
  ⟨c5_sweep_scope.1 86400001 InMem.demoStoreOld (by decide) "C" InMem.demoConvOld (by decide),
   c5_sweep_scope.2 5 Mongo.demoMStoreOld "C" Mongo.demoMConvOld (by decide) rfl (by decide)⟩

/-- C6 counterexample: the MongoDB `GET /api/conversations/:convId` returns
the stored messages verbatim: a message whose age exceeds the 24-hour TTL
(here `sentAt = 0` read at `now = TTL + 1`) is still present in the result. -/
theorem c6_stale_read_counterexample :
    Mongo.mongoGetConversation "C" Mongo.demoMStoreOld =
      (Mongo.demoMStoreOld, Mongo.MResult.ok Mongo.demoMConvOld) ∧
    ({ id := 1, text := "old", isCreator := false, timestamp := 0 } : Mongo.MMessage) ∈
      Mongo.demoMConvOld.messages ∧
    86400001 - 0 > InMem.AUTO_DELETE_TIME := by
  exact ⟨by decide, by decide, by decide⟩

/-- C6 amended: the in-memory `getConversation` filters out every message
older than the TTL at read time (so a message with `sentAt = now - TTL - 1`
is absent); the MongoDB variant returns the stored conversation unfiltered
(its expiry is handled by the database TTL index on whole documents). -/
theorem c6_lazy_filtering :
    (∀ convId now s conv, alookup convId s.conversations = some conv →
      ∀ c', (InMem.getConversation convId now s).2 = some c' →
        (c'.messages = conv.messages.filter
          (fun m => decide (now - m.timestamp ≤ InMem.AUTO_DELETE_TIME)) ∧
         ∀ m ∈ c'.messages, now - m.timestamp ≤ InMem.AUTO_DELETE_TIME)) ∧
    (∀ convId st conv, alookup convId st.convs = some conv →
      (alookup conv.linkId st.links).isSome = true →
      Mongo.mongoGetConversation convId st = (st, Mongo.MResult.ok conv)) := by
  constructor
  · intro convId now s conv hc c' hc'
    rcases InMem.inmem_get_filters convId now s hc with ⟨c'', hcr, hmsg, hall⟩
    rw [hcr] at hc'
    cases hc'
    exact ⟨hmsg, hall⟩
  · intro convId st conv hc hl
    exact Mongo.mongo_get_unfiltered convId st hc hl

/-- C6 witness: reading the demo conversation at `now = TTL + 1` filters its
only message in the in-memory variant and returns it verbatim in the MongoDB
variant. -/
theorem c6_lazy_filtering_witness :
    InMem.demoConvEmptied.messages =
      InMem.demoConvOld.messages.filter
        (fun m => decide (86400001 - m.timestamp ≤ InMem.AUTO_DELETE_TIME)) ∧
    Mongo.mongoGetConversation "C" Mongo.demoMStoreOld =
      (Mongo.demoMStoreOld, Mongo.MResult.ok Mongo.demoMConvOld) :=
  ⟨(c6_lazy_filtering.1 "C" 86400001 InMem.demoStoreOld InMem.demoConvOld (by decide)
      InMem.demoConvEmptied (by decide)).1,
   c6_lazy_filtering.2 "C" Mongo.demoMStoreOld Mongo.demoMConvOld (by decide) (by decide)⟩

/-- C7: `createConversation` fails with not-found and leaves the store
unchanged whenever the link is absent (in both variants); on success the new
conversation has no messages, `hasMessages = false`, and (for a fresh id on a
reachable in-memory state) its id is in no link's `conversations` list. -/
theorem c7_create_conversation :
    (∀ s linkId convId now, alookup linkId s.links = none →
      InMem.createConversation linkId convId now s = (s, none)) ∧
    (∀ ops linkId convId now, InMem.WFTrace ops →
      InMem.freshOp ops (InMem.Op.createConversation linkId convId now) = true →
      ∀ conv, (InMem.createConversation linkId convId now (InMem.runState ops)).2 =
          some conv →
        conv.messages = [] ∧ conv.hasMessages = false ∧
        ∀ lid l, alookup lid (InMem.runState ops).links = some l →
          ¬ (convId ∈ l.conversations)) ∧
    (∀ st linkId convId anonId now, alookup linkId st.links = none →
      Mongo.mongoCreateConversation linkId convId anonId now st = (st, none)) ∧
    (∀ st linkId convId anonId now conv,
      (Mongo.mongoCreateConversation linkId convId anonId now st).2 = some conv →
      conv.messages = [] ∧ conv.hasMessages = false) := by
  refine ⟨?_, ?_, ?_, ?_⟩
  · intro s linkId convId now h
    unfold InMem.createConversation
    rw [h]
  · intro ops linkId convId now hwf hfresh conv hcv
    have hinv := InMem.inv_runState ops hwf
    revert hcv
    unfold InMem.createConversation
    cases hl : alookup linkId (InMem.runState ops).links with
    | none =>
      intro hcv
      cases hcv
    | some l0 =>
      dsimp only
      intro hcv
      cases hcv
      refine ⟨rfl, rfl, ?_⟩
      intro lid l hll hmem
      rcases hinv.link_back lid l hll convId hmem with ⟨c0, hc0, -⟩
      have hkey := InMem.conv_key_created ops convId (by rw [hc0]; rfl)
      simp [InMem.freshOp] at hfresh
      exact hfresh hkey
  · intro st linkId convId anonId now h
    unfold Mongo.mongoCreateConversation
    rw [h]
  · intro st linkId convId anonId now conv hcv
    revert hcv
    unfold Mongo.mongoCreateConversation
    cases hl : alookup linkId st.links with
    | none =>
      intro hcv
      cases hcv
    | some l0 =>
      dsimp only
      intro hcv
      cases hcv
      exact ⟨rfl, rfl⟩

/-- C7 witness: a failing and a successful creation in both variants. -/
theorem c7_create_conversation_witness :
    InMem.createConversation "nolink" "X" 5 InMem.demoStoreFresh =
      (InMem.demoStoreFresh, none) ∧
    InMem.demoConvC2.messages = [] ∧ InMem.demoConvC2.hasMessages = false ∧
    ¬ ("C2" ∈ InMem.demoLinkAfter.conversations) ∧
    Mongo.mongoCreateConversation "nolink" "X" "a" 5 Mongo.demoMStoreFresh =
      (Mongo.demoMStoreFresh, none) := by
  have h2 := c7_create_conversation.2.1 InMem.demoOps "L" "C2" 9
    (by decide : InMem.wfFrom [] InMem.demoOps = true) (by decide)
    InMem.demoConvC2 (by decide)
  exact ⟨c7_create_conversation.1 InMem.demoStoreFresh "nolink" "X" 5 (by decide),
    h2.1, h2.2.1, h2.2.2 "L" InMem.demoLinkAfter (by decide),
    c7_create_conversation.2.2.1 Mongo.demoMStoreFresh "nolink" "X" "a" 5 (by decide)⟩

/-- C8: both variants' GC sweeps are idempotent: at a fixed clock value,
running the sweep twice in immediate succession produces the same state as
running it once, so the second run deletes nothing. -/
theorem c8_sweep_idempotent :
    (∀ now s, InMem.cleanupOldMessages now (InMem.cleanupOldMessages now s) =
      InMem.cleanupOldMessages now s) ∧
    (∀ now st, Mongo.cleanupOrphanedConversations now
        (Mongo.cleanupOrphanedConversations now st) =
      Mongo.cleanupOrphanedConversations now st) :=
  ⟨InMem.cleanupOldMessages_idem, Mongo.cleanupOrphaned_idem⟩

/-- C9: the in-memory send stores and broadcasts the trimmed text, accepts
empty or whitespace-only input (appended as an empty-text message), updates
`lastMessage`, promotes a fresh conversation, and never produces an error
event. -/
theorem c9_trim_and_accept (s : InMem.Storage) (convId text : String) (isC : Bool)
    (now : Nat) (mid : String) (conv : InMem.Conversation)
    (hc : alookup convId s.conversations = some conv) :
    ∃ c', alookup convId
        (InMem.sendMessage convId text isC now mid s).1.conversations = some c' ∧
      c'.messages = conv.messages ++
        [{ text := InMem.jsTrim text, isCreator := isC, timestamp := now, id := mid }] ∧
      c'.lastMessage = now ∧
      (conv.messages = [] → c'.hasMessages = true) ∧
      InMem.newMsgPayloads (InMem.sendMessage convId text isC now mid s).2 =
        [{ text := InMem.jsTrim text, isCreator := isC, timestamp := now, id := mid }] ∧
      (InMem.sendMessage convId text isC now mid s).2.all
        (fun e => !(InMem.isErrorEvent e)) = true := by
  rcases InMem.send_self_lookup s convId text isC now mid hc with
    ⟨c', hl, hm, hlast, _, _, _, hfl⟩
  refine ⟨c', hl, hm, hlast, ?_, InMem.send_newmsg_payloads s convId text isC now mid hc,
    InMem.send_no_error s convId text isC now mid⟩
  intro hemp
  rw [hfl, hemp]
  rfl

/-- C9 witness: a whitespace-only send is accepted as an empty-text message
with no error. -/
theorem c9_trim_and_accept_witness :
    InMem.jsTrim "   " = "" ∧
    InMem.newMsgPayloads (InMem.sendMessage "C" "   " false 7 "m1"
        InMem.demoStoreFresh).2 =
      [{ text := "", isCreator := false, timestamp := 7, id := "m1" }] ∧
    (InMem.sendMessage "C" "   " false 7 "m1" InMem.demoStoreFresh).2.all
      (fun e => !(InMem.isErrorEvent e)) = true := by
  have h := c9_trim_and_accept InMem.demoStoreFresh "C" "   " false 7 "m1"
    { id := "C", linkId := "L", messages := [], createdAt := 1, lastMessage := 1,
      hasMessages := false } (by decide)
  rcases h with ⟨c', -, -, -, -, hpay, herr⟩
  refine ⟨by decide, ?_, herr⟩
  rw [hpay]
  decide

/-- C10: in the MongoDB variant, reading a conversation whose link no longer
exists is a destructive read: `getConversation`, `join-conversation` and
`send-message` all delete the conversation and surface the expired-link
error; a second read of the same id then returns the plain not-found error. -/
theorem c10_destructive_read (st : Mongo.MStorage) (convId : String) (conv : Mongo.MConv)
    (hc : alookup convId st.convs = some conv)
    (hl : alookup conv.linkId st.links = none) :
    Mongo.mongoGetConversation convId st =
      ({ st with convs := Mongo.deleteConv convId st.convs },
       Mongo.MResult.notFound "Chat link has expired") ∧
    alookup convId (Mongo.mongoGetConversation convId st).1.convs = none ∧
    (Mongo.mongoGetConversation convId (Mongo.mongoGetConversation convId st).1).2 =
      Mongo.MResult.notFound "Conversation not found" ∧
    (∀ text isC now msgId, Mongo.mongoSend convId text isC now msgId st =
      ({ st with convs := Mongo.deleteConv convId st.convs },
       [{ target := InMem.Target.toSender,
          event := Mongo.MEvent.errorMsg "Chat link has expired" }])) ∧
    Mongo.mongoJoinConversation convId st =
      ({ st with convs := Mongo.deleteConv convId st.convs },
       [{ target := InMem.Target.toSender,
          event := Mongo.MEvent.errorMsg "Chat link has expired" }]) := by
  have hget := Mongo.mongo_get_expired st convId hc hl
  refine ⟨hget, ?_, ?_, ?_, Mongo.mongo_join_expired st convId hc hl⟩
  · rw [hget]
    exact Mongo.alookup_deleteConv_self convId st.convs
  · rw [hget]
    dsimp only
    unfold Mongo.mongoGetConversation
    rw [Mongo.alookup_deleteConv_self]
  · intro text isC now msgId
    exact Mongo.mongo_send_expired st convId text isC now msgId hc hl

/-- C10 witness: the orphaned demo conversation is deleted by the first read
and missing on the second. -/
theorem c10_destructive_read_witness :
    Mongo.mongoGetConversation "C" Mongo.demoMOrphan =
      ({ Mongo.demoMOrphan with convs := Mongo.deleteConv "C" Mongo.demoMOrphan.convs },
       Mongo.MResult.notFound "Chat link has expired") ∧
    (Mongo.mongoGetConversation "C"
        (Mongo.mongoGetConversation "C" Mongo.demoMOrphan).1).2 =
      Mongo.MResult.notFound "Conversation not found" := by
  have h := c10_destructive_read Mongo.demoMOrphan "C" Mongo.demoMConvOld (by decide)
    (by decide)
  exact ⟨h.1, h.2.2.1⟩

end Anonym
